import Mathlib

/-!
Shallow embedding of the abnormal-file-hub deduplication engine
(src/backend/files/models.py, views.py, utils.py).

Modelling conventions:
- The File table is a list kept in the default Django ordering
  ordering = ['-uploaded_at'] (newest first); ingest prepends, and the
  uploadedAt stamp is drawn from the monotone counter, so querysets that
  rely on the default ordering read the list front to back.
- The FileReference table is a list in physical table (insertion) order,
  which is the order an unordered queryset iterates; createdAt is drawn
  from the same monotone counter, so the head of a filtered queryset is
  the earliest-created matching edge.
- Content is identified by its SHA-256 digest; the Hasher is abstracted
  by passing the digest (a Nat) directly, since the engine only ever
  compares digests for equality.
- The blob store is the list of storage locations currently holding
  bytes; file_upload_path assigns a fresh location to every saved file.
- nextId is the single source of fresh ids, storage locations and
  timestamps.
-/

namespace AbnormalFileHub

/-- One row of the File table (models.py, class File). -/
structure File where
  id : Nat
  fileHash : Option Nat
  size : Nat
  name : String
  isDup : Bool
  path : Nat
  uploadedAt : Nat
deriving DecidableEq

/-- One row of the FileReference table (models.py, class FileReference). -/
structure FileReference where
  id : Nat
  originalId : Nat
  refId : Nat
  createdAt : Nat
deriving DecidableEq

/-- Database plus blob-store state. -/
structure DB where
  files : List File
  refs : List FileReference
  blobs : List Nat
  nextId : Nat
deriving DecidableEq

def emptyDB : DB := { files := [], refs := [], blobs := [], nextId := 0 }

/-- Primary-key lookup in the File table. -/
def getFile (files : List File) (i : Nat) : Option File :=
  files.find? (fun f => f.id == i)

/-- UPDATE files SET is_duplicate = b WHERE id = i. -/
def setDup (files : List File) (i : Nat) (b : Bool) : List File :=
  files.map (fun f => if f.id == i then { f with isDup := b } else f)

/-- The post_save signal update_reference_file (models.py lines 69-74):
after a FileReference is created, its reference_file row is forced to
is_duplicate = True. -/
def applySignal (files : List File) (i : Nat) : List File :=
  setDup files i true

/-- FileReference.objects.create(original_file=.., reference_file=..)
together with the post_save signal it fires. -/
def createFileReference (db : DB) (origId refFileId : Nat) : DB :=
  let newRef : FileReference :=
    { id := db.nextId, originalId := origId, refId := refFileId, createdAt := db.nextId }
  { db with refs := db.refs ++ [newRef],
            files := applySignal db.files refFileId,
            nextId := db.nextId + 1 }

/-- File.objects.filter(file_hash=h, is_duplicate=False).first() under the
default ordering; used by FileViewSet.create and by verify_duplicates. -/
def firstCanonicalWithHash (files : List File) (h : Nat) : Option File :=
  (files.filter (fun f => f.fileHash == some h && f.isDup == false)).head?

inductive IngestResult where
  | createdOriginal (fileId : Nat)
  | createdDuplicate (fileId : Nat) (originalId : Nat)
deriving DecidableEq

/-- FileViewSet.create (views.py lines 100-175). The serializer declares
is_duplicate read-only, so the row is created with the model default
False; in the duplicate branch the signal fired by the FileReference
creation flips it to True (the double-check at lines 146-149 then sees
True on the shared in-memory object and does nothing). In both branches
serializer.save() stores the uploaded bytes at a fresh location produced
by file_upload_path. -/
def ingest (db : DB) (h : Nat) (sz : Nat) (nm : String) : DB × IngestResult :=
  match firstCanonicalWithHash db.files h with
  | some orig =>
      let fid := db.nextId
      let newFile : File :=
        { id := fid, fileHash := some h, size := sz, name := nm,
          isDup := false, path := fid, uploadedAt := fid }
      let db1 : DB := { db with files := newFile :: db.files,
                                blobs := db.blobs ++ [fid],
                                nextId := db.nextId + 1 }
      (createFileReference db1 orig.id fid, .createdDuplicate fid orig.id)
  | none =>
      let fid := db.nextId
      let newFile : File :=
        { id := fid, fileHash := some h, size := sz, name := nm,
          isDup := false, path := fid, uploadedAt := fid }
      ({ db with files := newFile :: db.files,
                 blobs := db.blobs ++ [fid],
                 nextId := db.nextId + 1 }, .createdOriginal fid)

inductive DestroyResult where
  | noContent
  | notFound
  | conflict (count : Nat) (ids : List Nat) (names : List String)
deriving DecidableEq

/-- ref.reference_file.original_filename as read through the foreign key
while building the 409 payload. -/
def nameOf (files : List File) (i : Nat) : String :=
  match getFile files i with
  | some f => f.name
  | none => ""

/-- DELETE FROM files WHERE id = i. -/
def removeFile (files : List File) (i : Nat) : List File :=
  files.filter (fun f => !(f.id == i))

/-- The on_delete=CASCADE behaviour of both foreign keys of
FileReference when a File row is deleted. -/
def cascadeRefs (refs : List FileReference) (i : Nat) : List FileReference :=
  refs.filter (fun r => !(r.originalId == i) && !(r.refId == i))

def removeBlob (blobs : List Nat) (p : Nat) : List Nat :=
  blobs.filter (fun q => !(q == p))

/-- Physical-file cleanup in the duplicate branch of FileViewSet.destroy
(views.py lines 220-226 and 234-239): the blob is removed whenever it
exists, with no check for other rows naming the same location. -/
def blobCleanupDuplicate (blobs : List Nat) (inst : File) : List Nat :=
  if blobs.contains inst.path then removeBlob blobs inst.path else blobs

/-- Physical-file cleanup in the original branch of FileViewSet.destroy
(views.py lines 297-307): the blob is removed only when it exists and no
remaining File row names the same storage location. -/
def blobCleanupOriginal (remaining : List File) (blobs : List Nat) (inst : File) : List Nat :=
  if blobs.contains inst.path then
    if remaining.any (fun f => f.path == inst.path) then blobs
    else removeBlob blobs inst.path
  else blobs

/-- references.first() on the FileReference queryset of a group
(views.py line 272). FileReference declares no Meta ordering, so
Django's first() orders the queryset by primary key; the pk is a random
uuid4 (models.py line 60), modelled here as the row's id. The selected
edge is therefore the group member with the smallest pk, which is
uncorrelated with creation time; the fold keeps the earlier row on pk
ties (pks are unique in the database, so ties cannot occur there). -/
def firstByPk (fr : FileReference) (rest : List FileReference) : FileReference :=
  rest.foldl (fun best r => if r.id < best.id then r else best) fr

/-- FileViewSet.destroy (views.py lines 192-309). -/
def destroy (db : DB) (fid : Nat) (confirm : Bool) : DB × DestroyResult :=
  match getFile db.files fid with
  | none => (db, .notFound)
  | some inst =>
    if inst.isDup then
      -- Case 1: deleting a duplicate file.
      match db.refs.find? (fun r => r.refId == fid) with
      | some ref =>
          let refs1 := db.refs.filter (fun r => !(r.id == ref.id))
          let refs2 := cascadeRefs refs1 fid
          let files1 := removeFile db.files fid
          let blobs1 := blobCleanupDuplicate db.blobs inst
          ({ db with files := files1, refs := refs2, blobs := blobs1 }, .noContent)
      | none =>
          let refs1 := cascadeRefs db.refs fid
          let files1 := removeFile db.files fid
          let blobs1 := blobCleanupDuplicate db.blobs inst
          ({ db with files := files1, refs := refs1, blobs := blobs1 }, .noContent)
    else
      -- Case 2: deleting an original file.
      match db.refs.filter (fun r => r.originalId == fid) with
      | [] =>
          let refs1 := cascadeRefs db.refs fid
          let files1 := removeFile db.files fid
          let blobs1 := blobCleanupOriginal files1 db.blobs inst
          ({ db with files := files1, refs := refs1, blobs := blobs1 }, .noContent)
      | firstRef :: rest =>
          if confirm then
            let sel := firstByPk firstRef rest
            let promotedId := sel.refId
            let files1 := setDup db.files promotedId false
            let refs1 := db.refs.map (fun r =>
              if r.originalId == fid && !(r.id == sel.id)
              then { r with originalId := promotedId } else r)
            let refs2 := refs1.filter (fun r => !(r.id == sel.id))
            let refs3 := cascadeRefs refs2 fid
            let files2 := removeFile files1 fid
            let blobs1 := blobCleanupOriginal files2 db.blobs inst
            ({ db with files := files2, refs := refs3, blobs := blobs1 }, .noContent)
          else
            let grp := firstRef :: rest
            (db, .conflict grp.length (grp.map (fun r => r.refId))
              (grp.map (fun r => nameOf db.files r.refId)))

/-- The join filter of verify_duplicates pass A: a FileReference whose
reference_file row exists and is not marked duplicate. -/
def isBadRef (files : List File) (r : FileReference) : Bool :=
  match getFile files r.refId with
  | some f => !f.isDup
  | none => false

/-- Pass A of verify_duplicates (utils.py lines 67-76). -/
def fixBadRefs (db : DB) : DB × Nat :=
  let bad := db.refs.filter (fun r => isBadRef db.files r)
  (bad.foldl (fun d r => { d with files := setDup d.files r.refId true }) db, bad.length)

/-- EXISTS check used for the orphan query. -/
def hasRef (refs : List FileReference) (i : Nat) : Bool :=
  refs.any (fun r => r.refId == i)

/-- Body of the orphan loop of verify_duplicates (utils.py lines 86-108);
the canonical query is re-executed against the current state for each
orphan. -/
def fixOrphanStep (acc : DB × Nat) (o : File) : DB × Nat :=
  match o.fileHash with
  | some h =>
    match firstCanonicalWithHash acc.1.files h with
    | some orig => (createFileReference acc.1 orig.id o.id, acc.2 + 1)
    | none => ({ acc.1 with files := setDup acc.1.files o.id false }, acc.2 + 1)
  | none => ({ acc.1 with files := setDup acc.1.files o.id false }, acc.2 + 1)

/-- verify_duplicates (utils.py lines 62-114); returns the new state and
fixed_count. The current_duplicates and current_references entries of the
returned dict are the counts of the new state and are derivable from it. -/
def verify_duplicates (db : DB) : DB × Nat :=
  let a := fixBadRefs db
  let orphans := a.1.files.filter (fun f => f.isDup && !hasRef a.1.refs f.id)
  let b := orphans.foldl fixOrphanStep (a.1, 0)
  (b.1, a.2 + b.2)

/-- File.objects.all().update(is_duplicate=False). -/
def resetFlags (files : List File) : List File :=
  files.map (fun f => { f with isDup := false })

/-- The files_by_hash group of one content hash, in the iteration order
of File.objects.all() (the default newest-first ordering). -/
def groupOf (files : List File) (h : Nat) : List File :=
  files.filter (fun f => f.fileHash == some h)

/-- The keys of the files_by_hash dict of rebuild_file_references, in
first-occurrence order of the iteration that built it. -/
def hashKeys (files : List File) : List Nat :=
  files.foldl (fun acc f =>
    match f.fileHash with
    | some h => if acc.contains h then acc else acc ++ [h]
    | none => acc) []

/-- Body of the inner loop of rebuild_file_references (utils.py lines
46-54): mark one group member duplicate and link it to the group
original. The signal fired by the FileReference creation re-asserts
is_duplicate = True on the same row. -/
def rebuildGroupStep (orig : File) (d : DB) (dupf : File) : DB :=
  createFileReference { d with files := setDup d.files dupf.id true } orig.id dupf.id

/-- rebuild_file_references (utils.py lines 22-60). Groups are built from
the post-reset snapshot of the table, iterated in the default ordering. -/
def rebuild_file_references (db : DB) : DB :=
  let files0 := resetFlags db.files
  let db0 : DB := { db with files := files0, refs := [] }
  (hashKeys files0).foldl (fun d h =>
    match groupOf files0 h with
    | [] => d
    | [_] => d
    | orig :: rest => rest.foldl (rebuildGroupStep orig) d) db0

/-- Declarative description of the flag rebuild_file_references leaves
on one File row: duplicate exactly when its hash group has at least two
members and the row is not the group member listed first in the default
ordering. -/
def rebuildSpecDup (files : List File) (f : File) : Bool :=
  match f.fileHash with
  | none => false
  | some h =>
    match groupOf files h with
    | [] => false
    | [_] => false
    | orig :: _ :: _ => !(orig.id == f.id)

/-- The (original_file, reference_file) id pairs rebuild_file_references
creates for one hash group. -/
def groupTailPairs (files : List File) (h : Nat) : List (Nat × Nat) :=
  match groupOf files h with
  | orig :: g :: rest => (g :: rest).map (fun x => (orig.id, x.id))
  | _ => []

/-- The flag state of one row after the groups of the hashes in done
have been processed. -/
def keyMarked (done : List Nat) (files : List File) (f : File) : Bool :=
  match f.fileHash with
  | none => false
  | some h => done.contains h && rebuildSpecDup files f

/-- The dict returned by calculate_storage_stats (utils.py lines
116-144), except the rounded float percentage, which is a presentation
detail derived from storage_saved_bytes and logical_storage_bytes. -/
structure StorageStats where
  total_files : Nat
  duplicate_files : Nat
  unique_files : Nat
  physical_storage_bytes : Nat
  logical_storage_bytes : Nat
  storage_saved_bytes : Nat
deriving DecidableEq

def calculate_storage_stats (db : DB) : StorageStats :=
  let total := db.files.length
  let dups := (db.files.filter (fun f => f.isDup)).length
  let physical := ((db.files.filter (fun f => !f.isDup)).map (fun f => f.size)).sum
  let logical := (db.files.map (fun f => f.size)).sum
  { total_files := total, duplicate_files := dups, unique_files := total - dups,
    physical_storage_bytes := physical, logical_storage_bytes := logical,
    storage_saved_bytes := logical - physical }

/-- The stats action (views.py lines 326-359): it first runs
verify_duplicates via _verify_file_reference_consistency, then computes
the statistics on the resulting state. -/
def statsAction (db : DB) : DB × StorageStats :=
  let a := verify_duplicates db
  (a.1, calculate_storage_stats a.1)

/-- The engine operations quantified over by the invariant claims. -/
inductive Op where
  | ingestOp (h sz : Nat) (nm : String)
  | destroyOp (fid : Nat) (confirm : Bool)
  | auditOp
  | rebuildOp

def applyOp (db : DB) : Op → DB
  | .ingestOp h sz nm => (ingest db h sz nm).1
  | .destroyOp fid c => (destroy db fid c).1
  | .auditOp => (verify_duplicates db).1
  | .rebuildOp => rebuild_file_references db

/-- Number of canonical File rows carrying a given content hash. -/
def canonCount (files : List File) (h : Nat) : Nat :=
  files.countP (fun f => f.fileHash == some h && f.isDup == false)

/-- Invariant I1: every content hash present has at most one canonical
File. -/
def I1 (db : DB) : Prop := ∀ h : Nat, canonCount db.files h ≤ 1

/-- Well-formedness supplied by the database layer: primary keys are
unique and below the id counter. -/
def WF (db : DB) : Prop :=
  (db.files.map (fun f => f.id)).Nodup ∧ ∀ f ∈ db.files, f.id < db.nextId

/-- Every FileReference links two File rows carrying the same content
hash (the hash half of invariant I2). -/
def EdgesSameHash (db : DB) : Prop :=
  ∀ r ∈ db.refs, ∀ fo ∈ db.files, ∀ fd ∈ db.files,
    fo.id = r.originalId → fd.id = r.refId → fo.fileHash = fd.fileHash

/-- Fold a list of ingest requests (content hash, size, name), oldest
request first. -/
def ingestAll (db : DB) : List (Nat × Nat × String) → DB
  | [] => db
  | x :: rest => ingestAll (ingest db x.1 x.2.1 x.2.2).1 rest

/-- n successive ingests of one fixed content (hash h, size sz) from the
empty store; the k-th upload may carry any client filename nms k. -/
def ingestSeq (h sz : Nat) (nms : Nat → String) : Nat → DB
  | 0 => emptyDB
  | n + 1 => (ingest (ingestSeq h sz nms n) h sz (nms n)).1

/-! ### Concrete states used by witnesses and counterexamples -/

/-- A store holding one canonical file. -/
def dbC10 : DB :=
  { files := [{ id := 0, fileHash := some 1, size := 4, name := "w",
                isDup := false, path := 0, uploadedAt := 0 }],
    refs := [], blobs := [0], nextId := 1 }

/-- Two File rows sharing storage location 5; row 0 is a duplicate of
row 1 via one FileReference. -/
def dbC8 : DB :=
  { files := [{ id := 0, fileHash := some 1, size := 4, name := "d",
                isDup := true, path := 5, uploadedAt := 1 },
              { id := 1, fileHash := some 1, size := 4, name := "e",
                isDup := false, path := 5, uploadedAt := 0 }],
    refs := [{ id := 2, originalId := 1, refId := 0, createdAt := 2 }],
    blobs := [5], nextId := 6 }

/-- An inconsistent store: one File flagged duplicate with no
FileReference and no canonical row for its hash. -/
def dbC9 : DB :=
  { files := [{ id := 0, fileHash := some 1, size := 3, name := "x",
                isDup := true, path := 0, uploadedAt := 0 }],
    refs := [], blobs := [0], nextId := 1 }

/-- A consistent store: canonical row 0 with duplicate row 1. -/
def dbC9w : DB :=
  { files := [{ id := 1, fileHash := some 7, size := 4, name := "b",
                isDup := true, path := 1, uploadedAt := 1 },
              { id := 0, fileHash := some 7, size := 4, name := "a",
                isDup := false, path := 0, uploadedAt := 0 }],
    refs := [{ id := 2, originalId := 0, refId := 1, createdAt := 2 }],
    blobs := [0, 1], nextId := 3 }

/-- A store with both kinds of inconsistency: edge 10 points at a row
still flagged canonical, and row 2 is a flagged duplicate with no edge
while a canonical row with its hash exists. -/
def dbC7 : DB :=
  { files := [{ id := 2, fileHash := some 3, size := 1, name := "o",
                isDup := true, path := 2, uploadedAt := 2 },
              { id := 1, fileHash := some 3, size := 1, name := "m",
                isDup := false, path := 1, uploadedAt := 1 },
              { id := 0, fileHash := some 4, size := 2, name := "k",
                isDup := false, path := 0, uploadedAt := 0 }],
    refs := [{ id := 10, originalId := 0, refId := 1, createdAt := 10 }],
    blobs := [0, 1, 2], nextId := 11 }

/-- Canonical row 0 with two duplicates, as produced by three uploads of
the same content. -/
def dbC4 : DB :=
  { files := [{ id := 3, fileHash := some 7, size := 4, name := "c",
                isDup := true, path := 3, uploadedAt := 3 },
              { id := 1, fileHash := some 7, size := 4, name := "b",
                isDup := true, path := 1, uploadedAt := 1 },
              { id := 0, fileHash := some 7, size := 4, name := "a",
                isDup := false, path := 0, uploadedAt := 0 }],
    refs := [{ id := 2, originalId := 0, refId := 1, createdAt := 2 },
             { id := 4, originalId := 0, refId := 3, createdAt := 4 }],
    blobs := [0, 1, 3], nextId := 5 }

/-- Canonical row 0 with duplicates 1 and 2; the edge to file 1 was
created first (created_at 1) but carries the larger primary key 9,
while the later edge to file 2 carries the smaller primary key 4 (pks
are random uuid4 values, so pk order and creation order diverge). -/
def dbC5x : DB :=
  { files := [{ id := 2, fileHash := some 7, size := 4, name := "t",
                isDup := true, path := 2, uploadedAt := 2 },
              { id := 1, fileHash := some 7, size := 4, name := "s",
                isDup := true, path := 1, uploadedAt := 1 },
              { id := 0, fileHash := some 7, size := 4, name := "r",
                isDup := false, path := 0, uploadedAt := 0 }],
    refs := [{ id := 9, originalId := 0, refId := 1, createdAt := 1 },
             { id := 4, originalId := 0, refId := 2, createdAt := 2 }],
    blobs := [0, 1, 2], nextId := 10 }

/-- Two files with the same content, uploaded at times 0 and 5; the
table lists the newer one first, per the default ordering. -/
def dbC6 : DB :=
  { files := [{ id := 1, fileHash := some 5, size := 2, name := "new",
                isDup := false, path := 1, uploadedAt := 5 },
              { id := 0, fileHash := some 5, size := 2, name := "old",
                isDup := false, path := 0, uploadedAt := 0 }],
    refs := [], blobs := [0, 1], nextId := 6 }

/-- The content hashes of the canonical rows, with multiplicity; I1
says this list has no repeats. -/
def canonHashes (files : List File) : List Nat :=
  (files.filter (fun f => !f.isDup)).filterMap (fun f => f.fileHash)

/-- A state satisfying I1 in which one FileReference links two files of
different hashes: row 2 (hash 2, duplicate) points at row 0 (hash 1,
canonical), while row 1 is the canonical of hash 2. -/
def dbC2 : DB :=
  { files := [{ id := 2, fileHash := some 2, size := 1, name := "c",
                isDup := true, path := 2, uploadedAt := 2 },
              { id := 1, fileHash := some 2, size := 1, name := "b",
                isDup := false, path := 1, uploadedAt := 1 },
              { id := 0, fileHash := some 1, size := 1, name := "a",
                isDup := false, path := 0, uploadedAt := 0 }],
    refs := [{ id := 3, originalId := 0, refId := 2, createdAt := 3 }],
    blobs := [0, 1, 2], nextId := 4 }

/-- A well-formed deduplicated state: canonical row 0 with duplicates 1
and 3, all of hash 7. -/
def dbC2w : DB :=
  { files := [{ id := 3, fileHash := some 7, size := 4, name := "z",
                isDup := true, path := 3, uploadedAt := 3 },
              { id := 1, fileHash := some 7, size := 4, name := "y",
                isDup := true, path := 1, uploadedAt := 1 },
              { id := 0, fileHash := some 7, size := 4, name := "x",
                isDup := false, path := 0, uploadedAt := 0 }],
    refs := [{ id := 2, originalId := 0, refId := 1, createdAt := 2 },
             { id := 4, originalId := 0, refId := 3, createdAt := 4 }],
    blobs := [0, 1, 3], nextId := 5 }

/-! ### Basic lemmas about the table primitives -/

/-- The row update performed by setDup on a single row. -/
def updRow (i : Nat) (b : Bool) (f : File) : File :=
  if f.id == i then { f with isDup := b } else f

lemma setDup_eq_map (files : List File) (i : Nat) (b : Bool) :
    setDup files i b = files.map (updRow i b) := rfl

lemma updRow_id (i : Nat) (b : Bool) (f : File) : (updRow i b f).id = f.id := by
  unfold updRow; split <;> rfl

lemma updRow_fileHash (i : Nat) (b : Bool) (f : File) :
    (updRow i b f).fileHash = f.fileHash := by
  unfold updRow; split <;> rfl

lemma ids_setDup (files : List File) (i : Nat) (b : Bool) :
    (setDup files i b).map (fun f => f.id) = files.map (fun f => f.id) := by
  rw [setDup_eq_map, List.map_map]
  exact List.map_congr_left (fun f _ => updRow_id i b f)

lemma getFile_setDup (files : List File) (i j : Nat) (b : Bool) :
    getFile (setDup files i b) j = (getFile files j).map (updRow i b) := by
  rw [setDup_eq_map]
  unfold getFile
  rw [List.find?_map]
  have hp : ((fun f : File => f.id == j) ∘ updRow i b) = (fun f : File => f.id == j) := by
    funext f
    simp [updRow_id]
  rw [hp]

lemma getFile_some (files : List File) (i : Nat) (f : File)
    (h : getFile files i = some f) : f.id = i ∧ f ∈ files := by
  refine ⟨?_, List.mem_of_find?_eq_some h⟩
  have := List.find?_some h
  simpa using this

lemma getFile_none (files : List File) (i : Nat)
    (h : getFile files i = none) : ∀ f ∈ files, f.id ≠ i := by
  intro f hf
  have := List.find?_eq_none.mp h f hf
  simpa using this

/-- The canonical-row predicate of the dedup queries. -/
def canonP (h : Nat) (f : File) : Bool :=
  f.fileHash == some h && f.isDup == false

lemma canonCount_eq (files : List File) (h : Nat) :
    canonCount files h = files.countP (canonP h) := rfl

lemma canonCount_filter_le (files : List File) (q : File → Bool) (h : Nat) :
    canonCount (files.filter q) h ≤ canonCount files h :=
  (List.filter_sublist files).countP_le _

lemma canonCount_setDup_true_le (files : List File) (i : Nat) (h : Nat) :
    canonCount (setDup files i true) h ≤ canonCount files h := by
  rw [canonCount_eq, canonCount_eq, setDup_eq_map, List.countP_map]
  apply List.countP_mono_left
  intro f _ hpf
  simp only [Function.comp, canonP, updRow] at hpf ⊢
  split at hpf
  · simp at hpf
  · exact hpf

lemma canonCount_cons (f : File) (files : List File) (h : Nat) :
    canonCount (f :: files) h =
      canonCount files h + (if canonP h f then 1 else 0) := by
  rw [canonCount_eq, canonCount_eq, List.countP_cons]

lemma firstCanonicalWithHash_none (files : List File) (h : Nat)
    (hn : firstCanonicalWithHash files h = none) : canonCount files h = 0 := by
  unfold firstCanonicalWithHash at hn
  rw [List.head?_eq_none_iff] at hn
  have hfe : files.filter (canonP h) = [] := hn
  rw [canonCount_eq, List.countP_eq_length_filter, hfe]
  rfl

lemma setDup_not_mem (files : List File) (i : Nat) (b : Bool)
    (hni : ∀ f ∈ files, f.id ≠ i) : setDup files i b = files := by
  rw [setDup_eq_map]
  calc files.map (updRow i b) = files.map id :=
        List.map_congr_left (fun f hf => by unfold updRow; simp [hni f hf])
    _ = files := List.map_id files

lemma countP_congr_eq {α : Type} (l : List α) (p q : α → Bool)
    (h : ∀ a ∈ l, p a = q a) : l.countP p = l.countP q := by
  induction l with
  | nil => rfl
  | cons a l ih =>
      rw [List.countP_cons, List.countP_cons, h a (List.mem_cons_self a l),
        ih (fun b hb => h b (List.mem_cons_of_mem a hb))]

lemma countP_map_simp {α β : Type} (l : List α) (f : α → β) (p : β → Bool)
    (q : α → Bool) (h : ∀ a ∈ l, p (f a) = q a) :
    (l.map f).countP p = l.countP q := by
  rw [List.countP_map]
  exact countP_congr_eq _ _ _ h

lemma countP_not_eq {α : Type} (l : List α) (p : α → Bool) :
    l.countP (fun a => !p a) = l.length - l.countP p := by
  induction l with
  | nil => rfl
  | cons a l ih =>
      have hle : l.countP p ≤ l.length := List.countP_le_length p
      rw [List.countP_cons, List.countP_cons, List.length_cons]
      cases hp : p a <;> simp [ih] <;> omega

lemma firstByPk_mem (fr : FileReference) (rest : List FileReference) :
    firstByPk fr rest ∈ fr :: rest := by
  unfold firstByPk
  induction rest generalizing fr with
  | nil => exact List.mem_cons_self _ _
  | cons r rs ih =>
      rw [List.foldl_cons]
      by_cases hlt : r.id < fr.id
      · rw [if_pos hlt]
        exact List.mem_cons_of_mem fr (ih r)
      · rw [if_neg hlt]
        rcases List.mem_cons.mp (ih fr) with he | hm
        · exact List.mem_cons.mpr (Or.inl he)
        · exact List.mem_cons_of_mem fr (List.mem_cons_of_mem r hm)

lemma firstByPk_min (fr : FileReference) (rest : List FileReference) :
    ∀ r ∈ fr :: rest, (firstByPk fr rest).id ≤ r.id := by
  unfold firstByPk
  induction rest generalizing fr with
  | nil =>
      intro r hr
      have he : r = fr := by simpa using hr
      rw [List.foldl_nil, he]
  | cons r0 rs ih =>
      intro r hr
      rw [List.foldl_cons]
      by_cases hlt : r0.id < fr.id
      · rw [if_pos hlt]
        rcases List.mem_cons.mp hr with he | hm
        · have h1 := ih r0 r0 (List.mem_cons_self _ _)
          rw [he]
          omega
        · rcases List.mem_cons.mp hm with he2 | hm2
          · rw [he2]
            exact ih r0 r0 (List.mem_cons_self _ _)
          · exact ih r0 r (List.mem_cons_of_mem _ hm2)
      · rw [if_neg hlt]
        rcases List.mem_cons.mp hr with he | hm
        · rw [he]
          exact ih fr fr (List.mem_cons_self _ _)
        · rcases List.mem_cons.mp hm with he2 | hm2
          · have h1 := ih fr fr (List.mem_cons_self _ _)
            have hge : fr.id ≤ r0.id := Nat.le_of_not_lt hlt
            rw [he2]
            omega
          · exact ih fr r (List.mem_cons_of_mem _ hm2)

lemma refId_inj_of_nodup (refs : List FileReference)
    (hnd : (refs.map (fun r => r.id)).Nodup) :
    ∀ r1 ∈ refs, ∀ r2 ∈ refs, r1.id = r2.id → r1 = r2 := by
  intro r1 h1 r2 h2 he
  exact List.inj_on_of_nodup_map hnd h1 h2 he

/-! ### Ingest bookkeeping lemmas -/

lemma ingest_blobs_length (db : DB) (h sz : Nat) (nm : String) :
    (ingest db h sz nm).1.blobs.length = db.blobs.length + 1 := by
  unfold ingest
  cases hF : firstCanonicalWithHash db.files h <;>
    simp [createFileReference]

lemma ingest_files_length (db : DB) (h sz : Nat) (nm : String) :
    (ingest db h sz nm).1.files.length = db.files.length + 1 := by
  unfold ingest
  cases hF : firstCanonicalWithHash db.files h <;>
    simp [createFileReference, applySignal, setDup]

lemma ingestAll_blobs_eq_files (ops : List (Nat × Nat × String)) :
    ∀ db : DB, db.blobs.length = db.files.length →
      (ingestAll db ops).blobs.length = (ingestAll db ops).files.length := by
  induction ops with
  | nil => intro db hdb; exact hdb
  | cons x rest ih =>
      intro db hdb
      have hstep : (ingest db x.1 x.2.1 x.2.2).1.blobs.length =
          (ingest db x.1 x.2.1 x.2.2).1.files.length := by
        rw [ingest_blobs_length, ingest_files_length, hdb]
      exact ih _ hstep

/-- State invariant maintained by repeated ingests of one fixed content:
the first upload is the canonical row at the tail of the listing, every
later upload is a duplicate row holding exactly one reference to it. -/
lemma ingestSeq_inv (h sz : Nat) (nms : Nat → String) :
    ∀ n, 1 ≤ n →
      ∃ ds : List File,
        (ingestSeq h sz nms n).files =
          ds ++ [{ id := 0, fileHash := some h, size := sz, name := nms 0,
                   isDup := false, path := 0, uploadedAt := 0 }] ∧
        ds.length = n - 1 ∧
        (∀ f ∈ ds, f.isDup = true ∧ f.fileHash = some h) ∧
        (∀ f ∈ ds, 0 < f.id ∧ f.id < (ingestSeq h sz nms n).nextId) ∧
        0 < (ingestSeq h sz nms n).nextId ∧
        (∀ f ∈ ds, ((ingestSeq h sz nms n).refs.countP (fun r => r.refId == f.id)) = 1) ∧
        (∀ r ∈ (ingestSeq h sz nms n).refs, r.originalId = 0 ∧ ∃ f ∈ ds, r.refId = f.id) := by
  intro n hn
  induction n, hn using Nat.le_induction with
  | base =>
      refine ⟨[], ?_⟩
      simp [ingestSeq, ingest, firstCanonicalWithHash, emptyDB]
  | succ n hn ih =>
      obtain ⟨ds, hfiles, hlen, hdup, hids, hnext, hcount, hrefs⟩ := ih
      set db := ingestSeq h sz nms n with hdb
      set c0 : File := { id := 0, fileHash := some h, size := sz, name := nms 0,
                         isDup := false, path := 0, uploadedAt := 0 } with hc0
      have hfirst : firstCanonicalWithHash db.files h = some c0 := by
        unfold firstCanonicalWithHash
        rw [hfiles, List.filter_append]
        have h1 : ds.filter (fun f => f.fileHash == some h && f.isDup == false) = [] := by
          rw [List.filter_eq_nil_iff]
          intro f hf
          simp [(hdup f hf).1]
        rw [h1]
        simp
      have hnotmem : ∀ f ∈ db.files, f.id ≠ db.nextId := by
        intro f hf
        rw [hfiles] at hf
        rcases List.mem_append.mp hf with hf | hf
        · exact Nat.ne_of_lt (hids f hf).2
        · have : f = c0 := by simpa using hf
          rw [this]
          exact Nat.ne_of_lt hnext
      have hstep : ingestSeq h sz nms (n + 1) = (ingest db h sz (nms n)).1 := rfl
      set newFile : File := { id := db.nextId, fileHash := some h, size := sz,
                              name := nms n, isDup := false, path := db.nextId,
                              uploadedAt := db.nextId } with hnf
      have hsig : applySignal (newFile :: db.files) db.nextId =
          { newFile with isDup := true } :: db.files := by
        unfold applySignal
        rw [setDup_eq_map, List.map_cons]
        have h2 : newFile.id = db.nextId := rfl
        have h3 : updRow db.nextId true newFile = { newFile with isDup := true } := by
          unfold updRow
          simp [h2]
        rw [← setDup_eq_map, setDup_not_mem db.files db.nextId true hnotmem, h3]
      set newDup : File := { newFile with isDup := true } with hnd
      set newRef : FileReference := { id := db.nextId + 1, originalId := c0.id, refId := db.nextId, createdAt := db.nextId + 1 } with hnr
      have hres : (ingest db h sz (nms n)).1 =
          { files := newDup :: db.files, refs := db.refs ++ [newRef],
            blobs := db.blobs ++ [db.nextId], nextId := db.nextId + 2 } := by
        simp only [ingest, hfirst, createFileReference]
        rw [hsig]
      have hdupid : newDup.id = db.nextId := rfl
      refine ⟨newDup :: ds, ?_, ?_, ?_, ?_, ?_, ?_, ?_⟩
      · rw [hstep, hres, hfiles]
        rfl
      · simp only [List.length_cons, hlen]
        omega
      · intro f hf
        rcases List.mem_cons.mp hf with rfl | hf
        · exact ⟨rfl, rfl⟩
        · exact hdup f hf
      · intro f hf
        rw [hstep, hres]
        dsimp only
        rcases List.mem_cons.mp hf with rfl | hf
        · rw [hdupid]
          exact ⟨hnext, by omega⟩
        · exact ⟨(hids f hf).1, by have := (hids f hf).2; omega⟩
      · rw [hstep, hres]
        show 0 < db.nextId + 2
        omega
      · intro f hf
        rw [hstep, hres]
        show List.countP (fun r => r.refId == f.id) (db.refs ++ [newRef]) = 1
        rw [List.countP_append]
        rcases List.mem_cons.mp hf with rfl | hf
        · have hz : db.refs.countP (fun r => r.refId == newDup.id) = 0 := by
            rw [List.countP_eq_zero]
            intro r hr
            obtain ⟨-, g, hg, hrg⟩ := hrefs r hr
            have hlt : g.id < db.nextId := (hids g hg).2
            simp only [beq_iff_eq, hdupid, hrg]
            exact Nat.ne_of_lt hlt
          rw [hz]
          have ho : List.countP (fun r => r.refId == newDup.id) [newRef] = 1 := by
            rw [List.countP_singleton]
            simp [hnr, hdupid]
          rw [ho]
        · have h1 : (db.refs.countP (fun r => r.refId == f.id)) = 1 := hcount f hf
          have h2 : List.countP (fun r => r.refId == f.id) [newRef] = 0 := by
            rw [List.countP_singleton, hnr]
            have hlt : f.id < db.nextId := (hids f hf).2
            simp only [beq_iff_eq]
            have hne : ¬(db.nextId = f.id) := by omega
            simp [hne]
          rw [h1, h2]
      · intro r hr
        rw [hstep, hres] at hr
        rcases List.mem_append.mp hr with hr | hr
        · obtain ⟨h0, g, hg, hrg⟩ := hrefs r hr
          exact ⟨h0, g, List.mem_cons_of_mem _ hg, hrg⟩
        · have hr1 : r = newRef := by simpa using hr
          subst hr1
          exact ⟨rfl, newDup, List.mem_cons_self _ _, rfl⟩

/-! ### Consistency-audit lemmas (verify_duplicates) -/

lemma isBadRef_setDup_true (fs : List File) (i : Nat) (r : FileReference)
    (h : isBadRef fs r = false) : isBadRef (setDup fs i true) r = false := by
  cases hg : getFile fs r.refId with
  | none =>
      have hg2 : getFile (setDup fs i true) r.refId = none := by
        rw [getFile_setDup, hg]
        rfl
      unfold isBadRef
      rw [hg2]
  | some f =>
      have hg2 : getFile (setDup fs i true) r.refId = some (updRow i true f) := by
        rw [getFile_setDup, hg]
        rfl
      unfold isBadRef at h ⊢
      rw [hg2]
      rw [hg] at h
      show (!(updRow i true f).isDup) = false
      unfold updRow
      split
      · rfl
      · exact h

lemma isBadRef_setDup_true_self (fs : List File) (i : Nat) (r : FileReference)
    (hr : r.refId = i) : isBadRef (setDup fs i true) r = false := by
  cases hg : getFile fs r.refId with
  | none =>
      have hg2 : getFile (setDup fs i true) r.refId = none := by
        rw [getFile_setDup, hg]
        rfl
      unfold isBadRef
      rw [hg2]
  | some f =>
      have hid : f.id = r.refId := (getFile_some _ _ _ hg).1
      have hg2 : getFile (setDup fs i true) r.refId = some (updRow i true f) := by
        rw [getFile_setDup, hg]
        rfl
      unfold isBadRef
      rw [hg2]
      show (!(updRow i true f).isDup) = false
      unfold updRow
      rw [hid, hr]
      simp

lemma isBadRef_setDup_false_other (fs : List File) (i : Nat) (r : FileReference)
    (hr : r.refId ≠ i) (h : isBadRef fs r = false) :
    isBadRef (setDup fs i false) r = false := by
  cases hg : getFile fs r.refId with
  | none =>
      have hg2 : getFile (setDup fs i false) r.refId = none := by
        rw [getFile_setDup, hg]
        rfl
      unfold isBadRef
      rw [hg2]
  | some f =>
      have hid : f.id = r.refId := (getFile_some _ _ _ hg).1
      have hg2 : getFile (setDup fs i false) r.refId = some (updRow i false f) := by
        rw [getFile_setDup, hg]
        rfl
      unfold isBadRef at h ⊢
      rw [hg2]
      rw [hg] at h
      show (!(updRow i false f).isDup) = false
      have hne : (f.id == i) = false := by
        simp [hid, hr]
      unfold updRow
      rw [hne]
      exact h

lemma fixBadRefs_shape (db : DB) :
    (fixBadRefs db).1 = { db with files := (db.refs.filter (fun r => isBadRef db.files r)).foldl (fun fs r => setDup fs r.refId true) db.files } := by
  show (db.refs.filter (fun r => isBadRef db.files r)).foldl
      (fun d r => { d with files := setDup d.files r.refId true }) db =
    { db with files := (db.refs.filter (fun r => isBadRef db.files r)).foldl (fun fs r => setDup fs r.refId true) db.files }
  generalize db.refs.filter (fun r => isBadRef db.files r) = rs
  induction rs generalizing db with
  | nil => rfl
  | cons r rs ih =>
      simp only [List.foldl_cons]
      rw [ih { db with files := setDup db.files r.refId true }]

lemma foldl_setTrue_ids (rs : List FileReference) :
    ∀ fs : List File,
      ((rs.foldl (fun fs r => setDup fs r.refId true) fs).map (fun f => f.id)) =
        fs.map (fun f => f.id) := by
  induction rs with
  | nil => intro fs; rfl
  | cons r rs ih =>
      intro fs
      simp only [List.foldl_cons]
      rw [ih, ids_setDup]

lemma foldl_setTrue_notbad (rs : List FileReference) (r : FileReference) :
    ∀ fs : List File, isBadRef fs r = false →
      isBadRef (rs.foldl (fun fs x => setDup fs x.refId true) fs) r = false := by
  induction rs with
  | nil => intro fs h; exact h
  | cons x rs ih =>
      intro fs h
      simp only [List.foldl_cons]
      exact ih _ (isBadRef_setDup_true fs x.refId r h)

lemma foldl_setTrue_mem (rs : List FileReference) (r : FileReference) :
    ∀ fs : List File, r ∈ rs →
      isBadRef (rs.foldl (fun fs x => setDup fs x.refId true) fs) r = false := by
  induction rs with
  | nil => intro fs h; exact absurd h (List.not_mem_nil r)
  | cons x rs ih =>
      intro fs h
      simp only [List.foldl_cons]
      rcases List.mem_cons.mp h with rfl | h
      · exact foldl_setTrue_notbad rs r _ (isBadRef_setDup_true_self fs r.refId r rfl)
      · exact ih _ h

lemma passA_notbad (db : DB) :
    ∀ r ∈ db.refs, isBadRef (fixBadRefs db).1.files r = false := by
  intro r hr
  rw [fixBadRefs_shape]
  cases hb : isBadRef db.files r with
  | true =>
      exact foldl_setTrue_mem _ r db.files (List.mem_filter.mpr ⟨hr, hb⟩)
  | false =>
      exact foldl_setTrue_notbad _ r db.files hb

lemma passA_refs (db : DB) : (fixBadRefs db).1.refs = db.refs := by
  rw [fixBadRefs_shape]

lemma passA_ids (db : DB) :
    (fixBadRefs db).1.files.map (fun f => f.id) = db.files.map (fun f => f.id) := by
  rw [fixBadRefs_shape]
  exact foldl_setTrue_ids _ db.files

lemma hasRef_append (l1 l2 : List FileReference) (i : Nat) :
    hasRef (l1 ++ l2) i = (hasRef l1 i || hasRef l2 i) := by
  unfold hasRef
  exact List.any_append

/-- One orphan-repair step keeps pass A discharged, keeps the remaining
orphans unreferenced, and never creates a flagged duplicate lacking an
edge beyond the remaining orphans. -/
lemma fixOrphanStep_inv (d : DB) (n : Nat) (o : File) (rest : List File)
    (hno : o.id ∉ rest.map (fun f => f.id))
    (c2 : ∀ r ∈ d.refs, isBadRef d.files r = false)
    (c3 : ∀ o2 ∈ o :: rest, hasRef d.refs o2.id = false)
    (c4 : ∀ f ∈ d.files, f.isDup = true →
      hasRef d.refs f.id = true ∨ ∃ o2 ∈ o :: rest, o2.id = f.id) :
    (∀ r ∈ (fixOrphanStep (d, n) o).1.refs,
        isBadRef (fixOrphanStep (d, n) o).1.files r = false) ∧
    (∀ o2 ∈ rest, hasRef (fixOrphanStep (d, n) o).1.refs o2.id = false) ∧
    (∀ f ∈ (fixOrphanStep (d, n) o).1.files, f.isDup = true →
      hasRef (fixOrphanStep (d, n) o).1.refs f.id = true ∨ ∃ o2 ∈ rest, o2.id = f.id) := by
  have hself : hasRef d.refs o.id = false := c3 o (List.mem_cons_self o rest)
  have hrefne : ∀ r ∈ d.refs, r.refId ≠ o.id := by
    intro r hr he
    have : hasRef d.refs o.id = true := by
      unfold hasRef
      rw [List.any_eq_true]
      exact ⟨r, hr, by simp [he]⟩
    rw [this] at hself
    exact Bool.true_eq_false.mp hself
  have hun2 : ∀ r ∈ d.refs, isBadRef (setDup d.files o.id false) r = false := by
    intro r hr
    exact isBadRef_setDup_false_other d.files o.id r (hrefne r hr) (c2 r hr)
  have hun4 : ∀ f ∈ setDup d.files o.id false, f.isDup = true →
      hasRef d.refs f.id = true ∨ ∃ o2 ∈ rest, o2.id = f.id := by
    intro f hf hfd
    rw [setDup_eq_map, List.mem_map] at hf
    obtain ⟨g, hg, rfl⟩ := hf
    by_cases hgid : g.id = o.id
    · exfalso
      have : (updRow o.id false g).isDup = false := by
        unfold updRow
        simp [hgid]
      rw [this] at hfd
      exact Bool.false_eq_true.mp hfd
    · have hgu : updRow o.id false g = g := by
        unfold updRow
        simp [hgid]
      rw [hgu] at hfd ⊢
      rcases c4 g hg hfd with hl | ⟨o2, ho2, he⟩
      · exact Or.inl hl
      · rcases List.mem_cons.mp ho2 with rfl | ho2
        · exact absurd he.symm hgid
        · exact Or.inr ⟨o2, ho2, he⟩
  cases ho : o.fileHash with
  | none =>
      have he : fixOrphanStep (d, n) o = ({ d with files := setDup d.files o.id false }, n + 1) := by
        simp only [fixOrphanStep, ho]
      rw [he]
      exact ⟨hun2, fun o2 h2 => c3 o2 (List.mem_cons_of_mem o h2), hun4⟩
  | some h =>
      cases hq : firstCanonicalWithHash d.files h with
      | none =>
          have he : fixOrphanStep (d, n) o = ({ d with files := setDup d.files o.id false }, n + 1) := by
            simp only [fixOrphanStep, ho, hq]
          rw [he]
          exact ⟨hun2, fun o2 h2 => c3 o2 (List.mem_cons_of_mem o h2), hun4⟩
      | some orig =>
          have he : fixOrphanStep (d, n) o = (createFileReference d orig.id o.id, n + 1) := by
            simp only [fixOrphanStep, ho, hq]
          rw [he]
          simp only [createFileReference, applySignal]
          refine ⟨?_, ?_, ?_⟩
          · intro r hr
            rcases List.mem_append.mp hr with hr | hr
            · exact isBadRef_setDup_true d.files o.id r (c2 r hr)
            · have hr1 : r = { id := d.nextId, originalId := orig.id, refId := o.id, createdAt := d.nextId } := by
                simpa using hr
              subst hr1
              exact isBadRef_setDup_true_self d.files o.id _ rfl
          · intro o2 h2
            rw [hasRef_append]
            have h1 : hasRef d.refs o2.id = false := c3 o2 (List.mem_cons_of_mem o h2)
            have h2ne : o.id ≠ o2.id := by
              intro he
              exact hno (he ▸ List.mem_map.mpr ⟨o2, h2, rfl⟩)
            have h3 : hasRef [({ id := d.nextId, originalId := orig.id, refId := o.id, createdAt := d.nextId } : FileReference)] o2.id = false := by
              unfold hasRef
              simp [h2ne]
            rw [h1, h3]
            rfl
          · intro f hf hfd
            rw [setDup_eq_map, List.mem_map] at hf
            obtain ⟨g, hg, rfl⟩ := hf
            by_cases hgid : g.id = o.id
            · left
              have hid : (updRow o.id true g).id = o.id := by
                rw [updRow_id, hgid]
              rw [hid, hasRef_append]
              have : hasRef [({ id := d.nextId, originalId := orig.id, refId := o.id, createdAt := d.nextId } : FileReference)] o.id = true := by
                unfold hasRef
                simp
              rw [this]
              simp
            · have hgu : updRow o.id true g = g := by
                unfold updRow
                simp [hgid]
              rw [hgu] at hfd ⊢
              rcases c4 g hg hfd with hl | ⟨o2, ho2, hoe⟩
              · left
                rw [hasRef_append, hl]
                rfl
              · rcases List.mem_cons.mp ho2 with rfl | ho2
                · exact absurd hoe.symm hgid
                · exact Or.inr ⟨o2, ho2, hoe⟩

/-- Folding the orphan repair over pairwise-distinct orphans discharges
both audit queries. -/
lemma orphanFold_clean (os : List File) :
    ∀ st : DB × Nat,
      (os.map (fun f => f.id)).Nodup →
      (∀ r ∈ st.1.refs, isBadRef st.1.files r = false) →
      (∀ o ∈ os, hasRef st.1.refs o.id = false) →
      (∀ f ∈ st.1.files, f.isDup = true →
        hasRef st.1.refs f.id = true ∨ ∃ o2 ∈ os, o2.id = f.id) →
      (∀ r ∈ (os.foldl fixOrphanStep st).1.refs,
          isBadRef (os.foldl fixOrphanStep st).1.files r = false) ∧
      (∀ f ∈ (os.foldl fixOrphanStep st).1.files, f.isDup = true →
          hasRef (os.foldl fixOrphanStep st).1.refs f.id = true) := by
  induction os with
  | nil =>
      intro st _ c2 _ c4
      refine ⟨c2, ?_⟩
      intro f hf hfd
      rcases c4 f hf hfd with hl | ⟨o2, ho2, -⟩
      · exact hl
      · exact absurd ho2 (List.not_mem_nil o2)
  | cons o rest ih =>
      intro st hnd c2 c3 c4
      obtain ⟨d, n⟩ := st
      have hnd1 : o.id ∉ rest.map (fun f => f.id) ∧ (rest.map (fun f => f.id)).Nodup := by
        rw [List.map_cons, List.nodup_cons] at hnd
        exact hnd
      obtain ⟨i2, i3, i4⟩ := fixOrphanStep_inv d n o rest hnd1.1 c2 c3 c4
      simp only [List.foldl_cons]
      exact ih (fixOrphanStep (d, n) o) hnd1.2 i2 i3 i4

/-- After one full run of verify_duplicates, both audit queries are
empty. -/
lemma verify_clean (db : DB) (hnd : (db.files.map (fun f => f.id)).Nodup) :
    (∀ r ∈ (verify_duplicates db).1.refs,
        isBadRef (verify_duplicates db).1.files r = false) ∧
    (∀ f ∈ (verify_duplicates db).1.files, f.isDup = true →
        hasRef (verify_duplicates db).1.refs f.id = true) := by
  have hda : (verify_duplicates db).1 =
      (((fixBadRefs db).1.files.filter
          (fun f => f.isDup && !hasRef (fixBadRefs db).1.refs f.id)).foldl
        fixOrphanStep ((fixBadRefs db).1, 0)).1 := rfl
  set da := (fixBadRefs db).1 with hdaDef
  set orphans := da.files.filter (fun f => f.isDup && !hasRef da.refs f.id) with horph
  have hndA : (da.files.map (fun f => f.id)).Nodup := by
    rw [hdaDef, passA_ids]
    exact hnd
  have hndO : (orphans.map (fun f => f.id)).Nodup := by
    have hsub : List.Sublist (orphans.map (fun f => f.id)) (da.files.map (fun f => f.id)) :=
      (List.filter_sublist da.files).map (fun f => f.id)
    exact hndA.sublist hsub
  have c2 : ∀ r ∈ da.refs, isBadRef da.files r = false := by
    rw [hdaDef, passA_refs]
    exact passA_notbad db
  have c3 : ∀ o ∈ orphans, hasRef da.refs o.id = false := by
    intro o hoo
    have hpred := (List.mem_filter.mp hoo).2
    have hb : (!hasRef da.refs o.id) = true := (Bool.and_eq_true_iff.mp hpred).2
    simpa using hb
  have c4 : ∀ f ∈ da.files, f.isDup = true →
      hasRef da.refs f.id = true ∨ ∃ o2 ∈ orphans, o2.id = f.id := by
    intro f hf hfd
    cases hhr : hasRef da.refs f.id with
    | true => exact Or.inl rfl
    | false =>
        right
        refine ⟨f, List.mem_filter.mpr ⟨hf, ?_⟩, rfl⟩
        rw [hfd, hhr]
        rfl
  rw [hda]
  exact orphanFold_clean orphans (da, 0) hndO c2 c3 c4

/-! ### Rebuild lemmas (rebuild_file_references) -/

lemma id_inj_of_nodup (files : List File)
    (hnd : (files.map (fun f => f.id)).Nodup) :
    ∀ a ∈ files, ∀ b ∈ files, a.id = b.id → a = b :=
  fun a ha b hb he => List.inj_on_of_nodup_map hnd ha hb he

lemma setDup_setDup_same (fs : List File) (i : Nat) :
    setDup (setDup fs i true) i true = setDup fs i true := by
  rw [setDup_eq_map, setDup_eq_map, List.map_map]
  apply List.map_congr_left
  intro f _
  simp only [Function.comp]
  unfold updRow
  by_cases hf : f.id = i <;> simp [hf]

lemma rebuildGroupStep_eq (orig : File) (d : DB) (f : File) :
    rebuildGroupStep orig d f =
      { d with files := setDup d.files f.id true,
               refs := d.refs ++ [{ id := d.nextId, originalId := orig.id,
                                    refId := f.id, createdAt := d.nextId }],
               nextId := d.nextId + 1 } := by
  simp only [rebuildGroupStep, createFileReference, applySignal]
  rw [setDup_setDup_same]

lemma groupFold_files (orig : File) (rest : List File) :
    ∀ d : DB, (rest.foldl (rebuildGroupStep orig) d).files =
      rest.foldl (fun fs f => setDup fs f.id true) d.files := by
  induction rest with
  | nil => intro d; rfl
  | cons f rest ih =>
      intro d
      simp only [List.foldl_cons]
      rw [rebuildGroupStep_eq]
      exact ih _

lemma groupFold_pairs (orig : File) (rest : List File) :
    ∀ d : DB, (rest.foldl (rebuildGroupStep orig) d).refs.map
        (fun r => (r.originalId, r.refId)) =
      d.refs.map (fun r => (r.originalId, r.refId)) ++
        rest.map (fun f => (orig.id, f.id)) := by
  induction rest with
  | nil => intro d; simp
  | cons f rest ih =>
      intro d
      simp only [List.foldl_cons]
      rw [rebuildGroupStep_eq, ih]
      simp

lemma foldl_setTrue_by_files (rest : List File) :
    ∀ fs : List File, rest.foldl (fun fs f => setDup fs f.id true) fs =
      fs.map (fun f => if f.id ∈ rest.map (fun x => x.id)
        then { f with isDup := true } else f) := by
  induction rest with
  | nil =>
      intro fs
      simp
  | cons x rest ih =>
      intro fs
      simp only [List.foldl_cons]
      rw [ih, setDup_eq_map, List.map_map]
      apply List.map_congr_left
      intro f _
      simp only [Function.comp]
      by_cases hx : f.id = x.id
      · have h1 : updRow x.id true f = { f with isDup := true } := by
          unfold updRow
          simp [hx]
        rw [h1]
        simp only [List.map_cons]
        by_cases hr : f.id ∈ rest.map (fun x => x.id) <;> simp [hx, hr]
      · have h1 : updRow x.id true f = f := by
          unfold updRow
          simp [hx]
        rw [h1]
        simp only [List.map_cons]
        by_cases hr : f.id ∈ rest.map (fun x => x.id) <;> simp [hx, hr]

lemma hashKeys_mem (files : List File) :
    ∀ (acc : List Nat) (x : Nat),
      x ∈ files.foldl (fun acc f =>
        match f.fileHash with
        | some h => if acc.contains h then acc else acc ++ [h]
        | none => acc) acc ↔
      x ∈ acc ∨ ∃ f ∈ files, f.fileHash = some x := by
  induction files with
  | nil => intro acc x; simp
  | cons f l ih =>
      intro acc x
      simp only [List.foldl_cons]
      cases hf : f.fileHash with
      | none =>
          rw [ih]
          constructor
          · rintro (hx | ⟨g, hg, hgx⟩)
            · exact Or.inl hx
            · exact Or.inr ⟨g, List.mem_cons_of_mem f hg, hgx⟩
          · rintro (hx | ⟨g, hg, hgx⟩)
            · exact Or.inl hx
            · rcases List.mem_cons.mp hg with rfl | hg
              · rw [hf] at hgx
                exact absurd hgx (by simp)
              · exact Or.inr ⟨g, hg, hgx⟩
      | some h =>
          dsimp only
          by_cases hc : acc.contains h = true
          · rw [if_pos hc, ih]
            constructor
            · rintro (hx | ⟨g, hg, hgx⟩)
              · exact Or.inl hx
              · exact Or.inr ⟨g, List.mem_cons_of_mem f hg, hgx⟩
            · rintro (hx | ⟨g, hg, hgx⟩)
              · exact Or.inl hx
              · rcases List.mem_cons.mp hg with rfl | hg
                · rw [hf] at hgx
                  have hxh : x = h := by
                    injection hgx with hh
                    exact hh.symm
                  subst hxh
                  exact Or.inl (by simpa using hc)
                · exact Or.inr ⟨g, hg, hgx⟩
          · rw [if_neg hc, ih]
            constructor
            · rintro (hx | ⟨g, hg, hgx⟩)
              · rcases List.mem_append.mp hx with hx | hx
                · exact Or.inl hx
                · have hxh : x = h := by simpa using hx
                  subst hxh
                  exact Or.inr ⟨f, List.mem_cons_self f l, hf⟩
              · exact Or.inr ⟨g, List.mem_cons_of_mem f hg, hgx⟩
            · rintro (hx | ⟨g, hg, hgx⟩)
              · exact Or.inl (List.mem_append.mpr (Or.inl hx))
              · rcases List.mem_cons.mp hg with rfl | hg
                · rw [hf] at hgx
                  have hxh : x = h := by
                    injection hgx with hh
                    exact hh.symm
                  subst hxh
                  exact Or.inl (List.mem_append.mpr (Or.inr (by simp)))
                · exact Or.inr ⟨g, hg, hgx⟩

lemma mem_hashKeys (files : List File) (x : Nat) :
    x ∈ hashKeys files ↔ ∃ f ∈ files, f.fileHash = some x := by
  rw [hashKeys, hashKeys_mem]
  simp

lemma hashKeys_nodup (files : List File) :
    ∀ acc : List Nat, acc.Nodup →
      (files.foldl (fun acc f =>
        match f.fileHash with
        | some h => if acc.contains h then acc else acc ++ [h]
        | none => acc) acc).Nodup := by
  induction files with
  | nil => intro acc h; exact h
  | cons f l ih =>
      intro acc hacc
      simp only [List.foldl_cons]
      cases hf : f.fileHash with
      | none => exact ih acc hacc
      | some h =>
          dsimp only
          by_cases hc : acc.contains h = true
          · rw [if_pos hc]
            exact ih acc hacc
          · rw [if_neg hc]
            refine ih _ ?_
            rw [List.nodup_append]
            refine ⟨hacc, List.nodup_singleton h, ?_⟩
            intro a ha hb
            have : a = h := by simpa using hb
            subst this
            exact hc (by simpa using ha)

lemma groupOf_reset (files : List File) (h : Nat) :
    groupOf (resetFlags files) h =
      (groupOf files h).map (fun f => { f with isDup := false }) := by
  unfold groupOf resetFlags
  induction files with
  | nil => rfl
  | cons f l ih =>
      simp only [List.map_cons, List.filter_cons]
      by_cases hf : (f.fileHash == some h) = true <;> simp [hf, ih]

lemma specDup_reset (files : List File) (g : File) :
    rebuildSpecDup (resetFlags files) { g with isDup := false } =
      rebuildSpecDup files g := by
  unfold rebuildSpecDup
  have hh : ({ g with isDup := false } : File).fileHash = g.fileHash := rfl
  rw [hh]
  cases hgh : g.fileHash with
  | none => rfl
  | some h =>
      dsimp only
      rw [groupOf_reset]
      cases hg2 : groupOf files h with
      | nil => rfl
      | cons a t =>
          cases t with
          | nil => rfl
          | cons b t2 => rfl

lemma countP_flatten {α : Type} (L : List (List α)) (p : α → Bool) :
    L.flatten.countP p = (L.map (fun l => l.countP p)).sum := by
  induction L with
  | nil => rfl
  | cons a L ih => simp [List.countP_append, ih]

lemma mem_groupOf (files : List File) (h : Nat) (f : File) :
    f ∈ groupOf files h ↔ f ∈ files ∧ f.fileHash = some h := by
  unfold groupOf
  rw [List.mem_filter]
  simp

lemma groupOf_ids_nodup (files : List File) (h : Nat)
    (hnd : (files.map (fun f => f.id)).Nodup) :
    ((groupOf files h).map (fun f => f.id)).Nodup :=
  hnd.sublist ((List.filter_sublist files).map _)

lemma keyMarked_append_of_spec_false (files0 : List File) (done : List Nat) (h : Nat)
    (hsp : ∀ f ∈ files0, f.fileHash = some h → rebuildSpecDup files0 f = false) :
    ∀ f ∈ files0, keyMarked (done ++ [h]) files0 f = keyMarked done files0 f := by
  intro f hf
  unfold keyMarked
  cases hfh : f.fileHash with
  | none => rfl
  | some h2 =>
      dsimp only
      by_cases hh2 : h2 = h
      · subst hh2
        rw [hsp f hf hfh]
        simp
      · have hc : (done ++ [h]).contains h2 = done.contains h2 := by
          cases hcd : done.contains h2 <;> simp_all
        rw [hc]

/-- Processing the hash groups in any order realizes the keyMarked flag
state and the groupTailPairs edges of the processed keys. -/
lemma rebuild_fold_inv (files0 : List File)
    (hnd : (files0.map (fun f => f.id)).Nodup) :
    ∀ (ks done : List Nat) (d : DB),
      d.files = files0.map (fun f =>
        if keyMarked done files0 f then { f with isDup := true } else f) →
      d.refs.map (fun r => (r.originalId, r.refId)) =
        (done.map (groupTailPairs files0)).flatten →
      ((ks.foldl (fun d h =>
          match groupOf files0 h with
          | [] => d
          | [_] => d
          | orig :: rest => rest.foldl (rebuildGroupStep orig) d) d).files =
        files0.map (fun f =>
          if keyMarked (done ++ ks) files0 f then { f with isDup := true } else f)) ∧
      ((ks.foldl (fun d h =>
          match groupOf files0 h with
          | [] => d
          | [_] => d
          | orig :: rest => rest.foldl (rebuildGroupStep orig) d) d).refs.map
            (fun r => (r.originalId, r.refId)) =
        (((done ++ ks).map (groupTailPairs files0)).flatten)) := by
  intro ks
  induction ks with
  | nil =>
      intro done d h1 h2
      simp only [List.foldl_nil, List.append_nil]
      exact ⟨h1, h2⟩
  | cons h ks ih =>
      intro done d h1 h2
      simp only [List.foldl_cons]
      have hassoc : done ++ h :: ks = (done ++ [h]) ++ ks := by simp
      rw [hassoc]
      cases hg : groupOf files0 h with
      | nil =>
          have hsp : ∀ f ∈ files0, f.fileHash = some h →
              rebuildSpecDup files0 f = false := by
            intro f hf hfh
            have : f ∈ groupOf files0 h := (mem_groupOf files0 h f).mpr ⟨hf, hfh⟩
            rw [hg] at this
            exact absurd this (List.not_mem_nil f)
          apply ih (done ++ [h])
          · rw [h1]
            apply List.map_congr_left
            intro f hf
            rw [keyMarked_append_of_spec_false files0 done h hsp f hf]
          · rw [h2]
            have hgt : groupTailPairs files0 h = [] := by
              unfold groupTailPairs
              rw [hg]
            simp [hgt]
      | cons a t =>
          cases t with
          | nil =>
              have hsp : ∀ f ∈ files0, f.fileHash = some h →
                  rebuildSpecDup files0 f = false := by
                intro f hf hfh
                unfold rebuildSpecDup
                rw [hfh]
                dsimp only
                rw [hg]
              apply ih (done ++ [h])
              · rw [h1]
                apply List.map_congr_left
                intro f hf
                rw [keyMarked_append_of_spec_false files0 done h hsp f hf]
              · rw [h2]
                have hgt : groupTailPairs files0 h = [] := by
                  unfold groupTailPairs
                  rw [hg]
                simp [hgt]
          | cons b t2 =>
              apply ih (done ++ [h])
              · rw [groupFold_files, foldl_setTrue_by_files, h1, List.map_map]
                apply List.map_congr_left
                intro f hf
                simp only [Function.comp_def]
                by_cases hida : f.id ∈ (b :: t2).map (fun x => x.id)
                · obtain ⟨x, hx, hxid⟩ := List.mem_map.mp hida
                  have hxg : x ∈ groupOf files0 h := by
                    rw [hg]
                    exact List.mem_cons_of_mem a hx
                  have hxfiles : x ∈ files0 := ((mem_groupOf files0 h x).mp hxg).1
                  have hxf : x = f := id_inj_of_nodup files0 hnd x hxfiles f hf hxid
                  have hfg : f ∈ b :: t2 := hxf ▸ hx
                  have hfgrp : f ∈ groupOf files0 h := by
                    rw [hg]
                    exact List.mem_cons_of_mem a hfg
                  have hfh : f.fileHash = some h := ((mem_groupOf files0 h f).mp hfgrp).2
                  have hane : a.id ≠ f.id := by
                    have hndg := groupOf_ids_nodup files0 h hnd
                    rw [hg, List.map_cons, List.nodup_cons] at hndg
                    intro he
                    exact hndg.1 (he ▸ hida)
                  have hspec : rebuildSpecDup files0 f = true := by
                    unfold rebuildSpecDup
                    rw [hfh]
                    dsimp only
                    rw [hg]
                    simp [hane]
                  have hkm : keyMarked (done ++ [h]) files0 f = true := by
                    unfold keyMarked
                    rw [hfh]
                    dsimp only
                    rw [hspec]
                    simp
                  by_cases hkd : keyMarked done files0 f = true
                  · rw [if_pos hkd, if_pos hkm,
                      if_pos (show ({ f with isDup := true } : File).id ∈
                        (b :: t2).map (fun x => x.id) from hida)]
                  · rw [if_neg hkd, if_pos hkm, if_pos hida]
                · have hkm : keyMarked (done ++ [h]) files0 f =
                      keyMarked done files0 f := by
                    unfold keyMarked
                    cases hfh : f.fileHash with
                    | none => rfl
                    | some h2 =>
                        dsimp only
                        by_cases hh2 : h2 = h
                        · subst hh2
                          have hfgrp : f ∈ groupOf files0 h2 :=
                            (mem_groupOf files0 h2 f).mpr ⟨hf, hfh⟩
                          rw [hg] at hfgrp
                          rcases List.mem_cons.mp hfgrp with rfl | hfg2
                          · have hspec : rebuildSpecDup files0 f = false := by
                              unfold rebuildSpecDup
                              rw [hfh]
                              dsimp only
                              rw [hg]
                              simp
                            rw [hspec]
                            simp
                          · exact absurd (List.mem_map.mpr ⟨f, hfg2, rfl⟩) hida
                        · have hc : (done ++ [h]).contains h2 = done.contains h2 := by
                            cases hcd : done.contains h2 <;> simp_all
                          rw [hc]
                  rw [hkm]
                  by_cases hkd : keyMarked done files0 f = true
                  · rw [if_pos hkd,
                      if_neg (show ¬(({ f with isDup := true } : File).id ∈
                        (b :: t2).map (fun x => x.id)) from hida)]
                  · rw [if_neg hkd, if_neg hida]
              · rw [groupFold_pairs, h2]
                have hgt : groupTailPairs files0 h =
                    (b :: t2).map (fun x => (a.id, x.id)) := by
                  unfold groupTailPairs
                  rw [hg]
                simp [hgt]

/-- The full run of rebuild_file_references realizes the
rebuildSpecDup flags and the groupTailPairs edges of every hash key. -/
lemma rebuild_core (db : DB)
    (hnd0 : ((resetFlags db.files).map (fun f => f.id)).Nodup) :
    ((rebuild_file_references db).files =
      (resetFlags db.files).map (fun f =>
        if rebuildSpecDup (resetFlags db.files) f then { f with isDup := true } else f)) ∧
    ((rebuild_file_references db).refs.map (fun r => (r.originalId, r.refId)) =
      ((hashKeys (resetFlags db.files)).map
        (groupTailPairs (resetFlags db.files))).flatten) := by
  set files0 := resetFlags db.files with hf0
  have hinit1 : ({ db with files := files0, refs := [] } : DB).files =
      files0.map (fun f =>
        if keyMarked [] files0 f then { f with isDup := true } else f) := by
    show files0 = _
    have hpt : ∀ f ∈ files0,
        (if keyMarked [] files0 f then { f with isDup := true } else f) = f := by
      intro f _
      have hk : keyMarked [] files0 f = false := by
        unfold keyMarked
        cases f.fileHash <;> simp
      simp [hk]
    exact ((List.map_congr_left hpt).trans (List.map_id files0)).symm
  have hinit2 : ({ db with files := files0, refs := [] } : DB).refs.map
      (fun r => (r.originalId, r.refId)) =
      ((([] : List Nat)).map (groupTailPairs files0)).flatten := rfl
  obtain ⟨hA, hB⟩ := rebuild_fold_inv files0 hnd0 (hashKeys files0) []
    { db with files := files0, refs := [] } hinit1 hinit2
  have hshape : rebuild_file_references db =
      (hashKeys files0).foldl (fun d h =>
        match groupOf files0 h with
        | [] => d
        | [_] => d
        | orig :: rest => rest.foldl (rebuildGroupStep orig) d)
        { db with files := files0, refs := [] } := rfl
  rw [hshape]
  constructor
  · rw [hA]
    apply List.map_congr_left
    intro f hf
    have hkm : keyMarked (([] : List Nat) ++ hashKeys files0) files0 f =
        rebuildSpecDup files0 f := by
      unfold keyMarked rebuildSpecDup
      cases hfh : f.fileHash with
      | none => rfl
      | some h =>
          dsimp only
          have hc : (([] : List Nat) ++ hashKeys files0).contains h = true := by
            have hm := (mem_hashKeys files0 h).mpr ⟨f, hf, hfh⟩
            simpa using hm
          rw [hc]
          simp
    rw [hkm]
  · rw [hB]
    simp

/-- The flags rebuild_file_references leaves, phrased over the original
table: a row is duplicate after the rebuild exactly when
rebuildSpecDup holds of it, and canonical otherwise. -/
lemma rebuild_files_eq (db : DB)
    (hnd : (db.files.map (fun f => f.id)).Nodup) :
    (rebuild_file_references db).files = db.files.map (fun g =>
      if rebuildSpecDup db.files g then { g with isDup := true }
      else { g with isDup := false }) := by
  have hids : ((resetFlags db.files).map (fun f => f.id)) =
      db.files.map (fun f => f.id) := by
    unfold resetFlags
    rw [List.map_map]
    rfl
  have hnd0 : ((resetFlags db.files).map (fun f => f.id)).Nodup := by
    rw [hids]
    exact hnd
  obtain ⟨hA, -⟩ := rebuild_core db hnd0
  rw [hA]
  unfold resetFlags
  rw [List.map_map]
  apply List.map_congr_left
  intro g _
  simp only [Function.comp_def]
  have hsp := specDup_reset db.files g
  unfold resetFlags at hsp
  rw [hsp]

lemma sum_indicator (l : List Nat) (h : Nat) :
    (l.map (fun k => if k = h then 1 else 0)).sum = l.countP (fun k => k == h) := by
  induction l with
  | nil => rfl
  | cons a l ih =>
      rw [List.map_cons, List.sum_cons, List.countP_cons, ih]
      by_cases ha : a = h <;> simp [ha] <;> omega

/-- Every edge left by rebuild_file_references links a tail member of
some hash group to that group's first listed member. -/
lemma rebuild_refs_src (db : DB)
    (hnd0 : ((resetFlags db.files).map (fun f => f.id)).Nodup) :
    ∀ r ∈ (rebuild_file_references db).refs,
      ∃ k orig g1 grest, groupOf (resetFlags db.files) k = orig :: g1 :: grest ∧
        ∃ x ∈ g1 :: grest, r.originalId = orig.id ∧ r.refId = x.id := by
  intro r hr
  obtain ⟨-, hPB⟩ := rebuild_core db hnd0
  have h1 : (r.originalId, r.refId) ∈
      (rebuild_file_references db).refs.map (fun r => (r.originalId, r.refId)) :=
    List.mem_map.mpr ⟨r, hr, rfl⟩
  rw [hPB] at h1
  obtain ⟨pl, hpl, hprl⟩ := List.mem_flatten.mp h1
  obtain ⟨k, hk, rfl⟩ := List.mem_map.mp hpl
  rcases hgk : groupOf (resetFlags db.files) k with - | ⟨orig, t⟩
  · unfold groupTailPairs at hprl
    rw [hgk] at hprl
    exact absurd hprl (List.not_mem_nil _)
  · rcases t with - | ⟨g1, grest⟩
    · unfold groupTailPairs at hprl
      rw [hgk] at hprl
      exact absurd hprl (List.not_mem_nil _)
    · unfold groupTailPairs at hprl
      rw [hgk] at hprl
      obtain ⟨x, hx, hpe⟩ := List.mem_map.mp hprl
      have hpe1 : orig.id = r.originalId ∧ x.id = r.refId := by
        constructor
        · exact congrArg Prod.fst hpe
        · exact congrArg Prod.snd hpe
      exact ⟨k, orig, g1, grest, hgk, x, hx, hpe1.1.symm, hpe1.2.symm⟩

/-! ### Invariant I1 lemmas -/

lemma canonCount_eq_count (files : List File) (h : Nat) :
    canonCount files h = (canonHashes files).count h := by
  induction files with
  | nil => rfl
  | cons f l ih =>
      unfold canonCount canonHashes at ih ⊢
      simp only [beq_false] at ih
      rw [List.countP_cons, List.filter_cons]
      by_cases hd : f.isDup = true
      · simp [hd, ih]
      · have hd2 : f.isDup = false := by
          cases hb : f.isDup
          · rfl
          · exact absurd hb hd
        cases hfh : f.fileHash with
        | none => simp [hd2, hfh, ih]
        | some x =>
            by_cases hxh : x = h <;>
              simp [hd2, hfh, hxh, ih, List.count_cons] <;> omega

lemma I1_iff_nodup (db : DB) : I1 db ↔ (canonHashes db.files).Nodup := by
  unfold I1
  rw [List.nodup_iff_count_le_one]
  constructor
  · intro hI a
    rw [← canonCount_eq_count]
    exact hI a
  · intro hN h
    rw [canonCount_eq_count]
    exact hN h

lemma countP_id_le_one (files : List File) (i : Nat)
    (hnd : (files.map (fun f => f.id)).Nodup) :
    files.countP (fun f => f.id == i) ≤ 1 := by
  have h1 : (files.map (fun f => f.id)).count i ≤ 1 :=
    List.nodup_iff_count_le_one.mp hnd i
  have h2 : (files.map (fun f => f.id)).countP (fun x => x == i) ≤ 1 := h1
  rw [List.countP_map] at h2
  exact h2

lemma one_lt_length_of_two_mem {α : Type} (l : List α) (a b : α)
    (ha : a ∈ l) (hb : b ∈ l) (hne : a ≠ b) : 2 ≤ l.length := by
  induction l with
  | nil => exact absurd ha (List.not_mem_nil a)
  | cons x t ih =>
      rw [List.length_cons]
      rcases List.mem_cons.mp ha with rfl | ha2
      · rcases List.mem_cons.mp hb with rfl | hb2
        · exact absurd rfl hne
        · have := List.length_pos_of_mem hb2
          omega
      · rcases List.mem_cons.mp hb with rfl | hb2
        · have := List.length_pos_of_mem ha2
          omega
        · have := ih ha2 hb2
          omega

lemma two_le_countP_of_two_mem {α : Type} (l : List α) (p : α → Bool) (a b : α)
    (ha : a ∈ l) (hb : b ∈ l) (hne : a ≠ b)
    (hpa : p a = true) (hpb : p b = true) : 2 ≤ l.countP p := by
  rw [List.countP_eq_length_filter]
  exact one_lt_length_of_two_mem _ a b (List.mem_filter.mpr ⟨ha, hpa⟩)
    (List.mem_filter.mpr ⟨hb, hpb⟩) hne

lemma canonCount_setDup_eq_of_hash (files : List File) (i : Nat) (b : Bool) (h2 : Nat)
    (hrow : ∀ f ∈ files, f.id = i → ¬f.fileHash = some h2) :
    canonCount (setDup files i b) h2 = canonCount files h2 := by
  rw [canonCount_eq, canonCount_eq, setDup_eq_map, List.countP_map]
  apply countP_congr_eq
  intro f hf
  show canonP h2 (updRow i b f) = canonP h2 f
  by_cases hid : f.id = i
  · unfold canonP
    rw [updRow_fileHash]
    have hb : (f.fileHash == some h2) = false := by
      simp [hrow f hf hid]
    rw [hb]
    simp
  · have hur : updRow i b f = f := by
      unfold updRow
      simp [hid]
    rw [hur]

lemma canonCount_setDup_false_le (files : List File) (i : Nat) (h2 : Nat)
    (hnd : (files.map (fun f => f.id)).Nodup)
    (hzero : canonCount files h2 = 0) :
    canonCount (setDup files i false) h2 ≤ 1 := by
  rw [canonCount_eq, setDup_eq_map, List.countP_map]
  have hzero2 : files.countP (canonP h2) = 0 := hzero
  rw [List.countP_eq_zero] at hzero2
  have hmono : ∀ f ∈ files, canonP h2 (updRow i false f) = true → (f.id == i) = true := by
    intro f hf hcp
    by_cases hid : f.id = i
    · simp [hid]
    · exfalso
      have hur : updRow i false f = f := by
        unfold updRow
        simp [hid]
      rw [hur] at hcp
      exact (hzero2 f hf) hcp
  calc files.countP ((canonP h2) ∘ updRow i false)
      ≤ files.countP (fun f => f.id == i) := List.countP_mono_left hmono
    _ ≤ 1 := countP_id_le_one files i hnd

lemma foldl_setTrue_canonCount_le (rs : List FileReference) :
    ∀ (fs : List File) (h2 : Nat),
      canonCount (rs.foldl (fun fs r => setDup fs r.refId true) fs) h2 ≤
        canonCount fs h2 := by
  induction rs with
  | nil => intro fs h2; exact Nat.le_refl _
  | cons r rs ih =>
      intro fs h2
      simp only [List.foldl_cons]
      exact Nat.le_trans (ih _ h2) (canonCount_setDup_true_le fs r.refId h2)

lemma resetFlags_setDup (fs : List File) (i : Nat) (b : Bool) :
    resetFlags (setDup fs i b) = resetFlags fs := by
  unfold resetFlags
  rw [setDup_eq_map, List.map_map]
  apply List.map_congr_left
  intro f _
  simp only [Function.comp]
  unfold updRow
  by_cases hf : f.id = i <;> simp [hf]

lemma foldl_setTrue_resetFlags (rs : List FileReference) :
    ∀ fs : List File,
      resetFlags (rs.foldl (fun fs r => setDup fs r.refId true) fs) = resetFlags fs := by
  induction rs with
  | nil => intro fs; rfl
  | cons r rs ih =>
      intro fs
      simp only [List.foldl_cons]
      rw [ih, resetFlags_setDup]

lemma ids_resetFlags (fs : List File) :
    (resetFlags fs).map (fun f => f.id) = fs.map (fun f => f.id) := by
  unfold resetFlags
  rw [List.map_map]
  rfl

lemma hash_eq_of_shape (l1 l2 : List File)
    (hs : resetFlags l1 = resetFlags l2)
    (hnd2 : (l2.map (fun f => f.id)).Nodup)
    (f : File) (hf : f ∈ l1) (g : File) (hg : g ∈ l2) (hid : f.id = g.id) :
    f.fileHash = g.fileHash := by
  have h1 : ({ f with isDup := false } : File) ∈ resetFlags l1 :=
    List.mem_map.mpr ⟨f, hf, rfl⟩
  rw [hs] at h1
  obtain ⟨g2, hg2, he⟩ := List.mem_map.mp h1
  have hgid : g2.id = f.id := by
    have h3 := congrArg (fun x : File => x.id) he
    simpa using h3
  have hghash : g2.fileHash = f.fileHash := by
    have h3 := congrArg (fun x : File => x.fileHash) he
    simpa using h3
  have hg2g : g2 = g := id_inj_of_nodup l2 hnd2 g2 hg2 g hg (by rw [hgid, hid])
  rw [← hghash, hg2g]

lemma applySignal_cons_fresh (files : List File) (nf : File) (i : Nat)
    (hnf : nf.id = i) (hfresh : ∀ f ∈ files, f.id ≠ i) :
    applySignal (nf :: files) i = { nf with isDup := true } :: files := by
  unfold applySignal
  rw [setDup_eq_map, List.map_cons]
  rw [← setDup_eq_map, setDup_not_mem files i true hfresh]
  have hu : updRow i true nf = { nf with isDup := true } := by
    unfold updRow
    simp [hnf]
  rw [hu]

lemma beq_nat_comm (x y : Nat) : (x == y) = (y == x) := by
  by_cases hx : x = y
  · simp [hx]
  · have hy : ¬y = x := fun he => hx he.symm
    simp [hx, hy]

lemma I1_ingest (db : DB) (h sz : Nat) (nm : String)
    (hWF : WF db) (hI1 : I1 db) : I1 (ingest db h sz nm).1 := by
  have hfresh : ∀ f ∈ db.files, f.id ≠ db.nextId :=
    fun f hf => Nat.ne_of_lt (hWF.2 f hf)
  cases hF : firstCanonicalWithHash db.files h with
  | some orig =>
      have hfres : (ingest db h sz nm).1.files =
          ({ id := db.nextId, fileHash := some h, size := sz, name := nm,
             isDup := true, path := db.nextId, uploadedAt := db.nextId } : File)
            :: db.files := by
        simp only [ingest, hF, createFileReference]
        rw [applySignal_cons_fresh db.files _ db.nextId rfl hfresh]
      intro h2
      rw [hfres, canonCount_cons]
      simpa [canonP] using hI1 h2
  | none =>
      have hfres : (ingest db h sz nm).1.files =
          ({ id := db.nextId, fileHash := some h, size := sz, name := nm,
             isDup := false, path := db.nextId, uploadedAt := db.nextId } : File)
            :: db.files := by
        simp only [ingest, hF]
      intro h2
      rw [hfres, canonCount_cons]
      by_cases hh : h = h2
      · have hz : canonCount db.files h2 = 0 := by
          rw [← hh]
          exact firstCanonicalWithHash_none db.files h hF
        rw [hz]
        simp [canonP, hh]
      · simpa [canonP, hh] using hI1 h2

lemma I1_destroy (db : DB) (fid : Nat) (confirm : Bool)
    (hWF : WF db) (hES : EdgesSameHash db) (hI1 : I1 db) :
    I1 (destroy db fid confirm).1 := by
  cases hget : getFile db.files fid with
  | none =>
      have hres : (destroy db fid confirm).1 = db := by
        simp only [destroy, hget]
      rw [hres]
      exact hI1
  | some inst =>
      by_cases hdup : inst.isDup = true
      · have hres : (destroy db fid confirm).1.files = removeFile db.files fid := by
          cases hfind : db.refs.find? (fun r => r.refId == fid) with
          | some ref => simp only [destroy, hget, hdup, hfind, if_true]
          | none => simp only [destroy, hget, hdup, hfind, if_true]
        intro h2
        rw [hres]
        exact Nat.le_trans
          (canonCount_filter_le db.files (fun f => !(f.id == fid)) h2) (hI1 h2)
      · have hdup2 : inst.isDup = false := by
          cases hb : inst.isDup
          · rfl
          · exact absurd hb hdup
        cases hgrp : db.refs.filter (fun r => r.originalId == fid) with
        | nil =>
            have hres : (destroy db fid confirm).1.files = removeFile db.files fid := by
              simp only [destroy, hget, hdup2, hgrp]
              rfl
            intro h2
            rw [hres]
            exact Nat.le_trans
              (canonCount_filter_le db.files (fun f => !(f.id == fid)) h2) (hI1 h2)
        | cons fr rest =>
            cases hcf : confirm with
            | false =>
                have hres : (destroy db fid false).1 = db := by
                  simp only [destroy, hget, hdup2, hgrp]
                  rfl
                rw [hres]
                exact hI1
            | true =>
                have hout : (destroy db fid true).1.files =
                    removeFile (setDup db.files (firstByPk fr rest).refId false) fid := by
                  simp only [destroy, hget, hdup2, hgrp]
                  rfl
                have hsel_mem_grp : firstByPk fr rest ∈
                    db.refs.filter (fun r => r.originalId == fid) := by
                  rw [hgrp]
                  exact firstByPk_mem fr rest
                have hsel_refs : firstByPk fr rest ∈ db.refs :=
                  (List.mem_filter.mp hsel_mem_grp).1
                have hsel_orig : (firstByPk fr rest).originalId = fid := by
                  simpa using (List.mem_filter.mp hsel_mem_grp).2
                obtain ⟨hinstid, hinstmem⟩ := getFile_some db.files fid inst hget
                intro h2
                rw [hout]
                cases hgp : getFile db.files (firstByPk fr rest).refId with
                | none =>
                    have hsd : setDup db.files (firstByPk fr rest).refId false = db.files :=
                      setDup_not_mem db.files (firstByPk fr rest).refId false
                        (getFile_none db.files (firstByPk fr rest).refId hgp)
                    rw [hsd]
                    exact Nat.le_trans
                      (canonCount_filter_le db.files (fun f => !(f.id == fid)) h2) (hI1 h2)
                | some fp =>
                    obtain ⟨hfpid, hfpmem⟩ :=
                      getFile_some db.files (firstByPk fr rest).refId fp hgp
                    have hhash : inst.fileHash = fp.fileHash :=
                      hES (firstByPk fr rest) hsel_refs inst hinstmem fp hfpmem
                        (by rw [hinstid, hsel_orig]) hfpid
                    cases hih : inst.fileHash with
                    | none =>
                        have hrow : ∀ f ∈ db.files, f.id = (firstByPk fr rest).refId →
                            ¬f.fileHash = some h2 := by
                          intro f hf hfid
                          have hffp : f = fp :=
                            id_inj_of_nodup db.files hWF.1 f hf fp hfpmem
                              (by rw [hfid, hfpid])
                          rw [hffp, ← hhash, hih]
                          simp
                        calc canonCount
                              (removeFile (setDup db.files (firstByPk fr rest).refId false)
                                fid) h2
                            ≤ canonCount (setDup db.files (firstByPk fr rest).refId false)
                                h2 := canonCount_filter_le _ _ h2
                          _ = canonCount db.files h2 :=
                              canonCount_setDup_eq_of_hash db.files
                                (firstByPk fr rest).refId false h2 hrow
                          _ ≤ 1 := hI1 h2
                    | some h0 =>
                        by_cases hh2 : h2 = h0
                        · rw [canonCount_eq]
                          have hinstc : canonP h2 inst = true := by
                            unfold canonP
                            rw [hih, hdup2, hh2]
                            simp
                          have hstep1 :
                              (removeFile (setDup db.files (firstByPk fr rest).refId false)
                                  fid).countP (canonP h2)
                              ≤ (removeFile (setDup db.files (firstByPk fr rest).refId false)
                                  fid).countP
                                  (fun f => f.id == (firstByPk fr rest).refId) := by
                            apply List.countP_mono_left
                            intro f hf hq
                            by_contra hne
                            have hne2 : f.id ≠ (firstByPk fr rest).refId := by
                              intro he
                              exact hne (by simp [he])
                            rw [removeFile] at hf
                            have hf1 := List.mem_filter.mp hf
                            have hfm : f ∈ db.files.map
                                (updRow (firstByPk fr rest).refId false) := by
                              rw [← setDup_eq_map]
                              exact hf1.1
                            obtain ⟨g, hg, hge⟩ := List.mem_map.mp hfm
                            have hgid : g.id = f.id := by rw [← hge, updRow_id]
                            have hgne : ¬g.id = (firstByPk fr rest).refId := by
                              rw [hgid]
                              exact hne2
                            have hfg : f = g := by
                              rw [← hge]
                              unfold updRow
                              simp [hgne]
                            have hffid : f.id ≠ fid := by
                              have h3 := hf1.2
                              simp at h3
                              exact h3
                            have hgcanon : canonP h2 g = true := by
                              rw [← hfg]
                              exact hq
                            have hgne_inst : g ≠ inst := by
                              intro he
                              apply hffid
                              rw [hfg, he]
                              exact hinstid
                            have h2le : 2 ≤ db.files.countP (canonP h2) :=
                              two_le_countP_of_two_mem db.files (canonP h2) g inst
                                hg hinstmem hgne_inst hgcanon hinstc
                            have h1le := hI1 h2
                            rw [canonCount_eq] at h1le
                            omega
                          have hstep3 :
                              (setDup db.files (firstByPk fr rest).refId false).countP
                                  (fun f => f.id == (firstByPk fr rest).refId)
                              = db.files.countP
                                  (fun f => f.id == (firstByPk fr rest).refId) := by
                            rw [setDup_eq_map]
                            apply countP_map_simp
                            intro g _
                            simp only [updRow_id]
                          calc (removeFile (setDup db.files (firstByPk fr rest).refId false)
                                  fid).countP (canonP h2)
                              ≤ (removeFile
                                  (setDup db.files (firstByPk fr rest).refId false)
                                  fid).countP
                                  (fun f => f.id == (firstByPk fr rest).refId) := hstep1
                            _ ≤ (setDup db.files (firstByPk fr rest).refId false).countP
                                  (fun f => f.id == (firstByPk fr rest).refId) :=
                                (List.filter_sublist _).countP_le _
                            _ = db.files.countP
                                  (fun f => f.id == (firstByPk fr rest).refId) := hstep3
                            _ ≤ 1 := countP_id_le_one db.files (firstByPk fr rest).refId
                                hWF.1
                        · have hrow : ∀ f ∈ db.files, f.id = (firstByPk fr rest).refId →
                              ¬f.fileHash = some h2 := by
                            intro f hf hfid
                            have hffp : f = fp :=
                              id_inj_of_nodup db.files hWF.1 f hf fp hfpmem
                                (by rw [hfid, hfpid])
                            rw [hffp, ← hhash, hih]
                            intro hc
                            exact hh2 (Option.some.inj hc).symm
                          calc canonCount
                                (removeFile (setDup db.files (firstByPk fr rest).refId false)
                                  fid) h2
                              ≤ canonCount (setDup db.files (firstByPk fr rest).refId false)
                                  h2 := canonCount_filter_le _ _ h2
                            _ = canonCount db.files h2 :=
                                canonCount_setDup_eq_of_hash db.files
                                  (firstByPk fr rest).refId false h2 hrow
                            _ ≤ 1 := hI1 h2

/-- The orphan-repair fold preserves I1 and the flag-erased table shape,
as long as every remaining orphan is a row of the reference table l0. -/
lemma orphanFold_I1 (l0 : List File) (hnd0 : (l0.map (fun f => f.id)).Nodup) :
    ∀ (os : List File) (st : DB × Nat),
      (∀ o ∈ os, o ∈ l0) →
      resetFlags st.1.files = resetFlags l0 →
      (∀ h2, canonCount st.1.files h2 ≤ 1) →
      (resetFlags (os.foldl fixOrphanStep st).1.files = resetFlags l0 ∧
       ∀ h2, canonCount (os.foldl fixOrphanStep st).1.files h2 ≤ 1) := by
  intro os
  induction os with
  | nil =>
      intro st hmem hsh hcc
      exact ⟨hsh, hcc⟩
  | cons o os ih =>
      intro st hmem hsh hcc
      obtain ⟨d, n⟩ := st
      have homem : o ∈ l0 := hmem o (List.mem_cons_self o os)
      have hndd : (d.files.map (fun f => f.id)).Nodup := by
        have hide : d.files.map (fun f => f.id) = l0.map (fun f => f.id) := by
          rw [← ids_resetFlags d.files, ← ids_resetFlags l0, hsh]
        rw [hide]
        exact hnd0
      have hrow : ∀ f ∈ d.files, f.id = o.id → f.fileHash = o.fileHash := by
        intro f hf hfid
        exact hash_eq_of_shape d.files l0 hsh hnd0 f hf o homem hfid
      rw [List.foldl_cons]
      cases ho : o.fileHash with
      | none =>
          have he : fixOrphanStep (d, n) o =
              ({ d with files := setDup d.files o.id false }, n + 1) := by
            simp only [fixOrphanStep, ho]
          rw [he]
          refine ih _ (fun o2 ho2 => hmem o2 (List.mem_cons_of_mem o ho2)) ?_ ?_
          · show resetFlags (setDup d.files o.id false) = resetFlags l0
            rw [resetFlags_setDup]
            exact hsh
          · intro h2
            show canonCount (setDup d.files o.id false) h2 ≤ 1
            have hr2 : ∀ f ∈ d.files, f.id = o.id → ¬f.fileHash = some h2 := by
              intro f hf hfid
              rw [hrow f hf hfid, ho]
              simp
            rw [canonCount_setDup_eq_of_hash d.files o.id false h2 hr2]
            exact hcc h2
      | some h =>
          cases hq : firstCanonicalWithHash d.files h with
          | none =>
              have he : fixOrphanStep (d, n) o =
                  ({ d with files := setDup d.files o.id false }, n + 1) := by
                simp only [fixOrphanStep, ho, hq]
              rw [he]
              refine ih _ (fun o2 ho2 => hmem o2 (List.mem_cons_of_mem o ho2)) ?_ ?_
              · show resetFlags (setDup d.files o.id false) = resetFlags l0
                rw [resetFlags_setDup]
                exact hsh
              · intro h2
                show canonCount (setDup d.files o.id false) h2 ≤ 1
                by_cases hh2 : h2 = h
                · have hz : canonCount d.files h2 = 0 := by
                    rw [hh2]
                    exact firstCanonicalWithHash_none d.files h hq
                  exact canonCount_setDup_false_le d.files o.id h2 hndd hz
                · have hr2 : ∀ f ∈ d.files, f.id = o.id → ¬f.fileHash = some h2 := by
                    intro f hf hfid
                    rw [hrow f hf hfid, ho]
                    intro hc
                    exact hh2 (Option.some.inj hc).symm
                  rw [canonCount_setDup_eq_of_hash d.files o.id false h2 hr2]
                  exact hcc h2
          | some orig =>
              have he : fixOrphanStep (d, n) o =
                  (createFileReference d orig.id o.id, n + 1) := by
                simp only [fixOrphanStep, ho, hq]
              rw [he]
              refine ih _ (fun o2 ho2 => hmem o2 (List.mem_cons_of_mem o ho2)) ?_ ?_
              · show resetFlags (setDup d.files o.id true) = resetFlags l0
                rw [resetFlags_setDup]
                exact hsh
              · intro h2
                show canonCount (setDup d.files o.id true) h2 ≤ 1
                exact Nat.le_trans (canonCount_setDup_true_le d.files o.id h2) (hcc h2)

lemma I1_verify (db : DB)
    (hnd : (db.files.map (fun f => f.id)).Nodup) (hI1 : I1 db) :
    I1 (verify_duplicates db).1 := by
  have hcc1 : ∀ h2, canonCount (fixBadRefs db).1.files h2 ≤ 1 := by
    intro h2
    rw [fixBadRefs_shape]
    exact Nat.le_trans (foldl_setTrue_canonCount_le _ db.files h2) (hI1 h2)
  have hnd1 : ((fixBadRefs db).1.files.map (fun f => f.id)).Nodup := by
    rw [passA_ids]
    exact hnd
  have hmem : ∀ o ∈ (fixBadRefs db).1.files.filter
      (fun f => f.isDup && !hasRef (fixBadRefs db).1.refs f.id),
      o ∈ (fixBadRefs db).1.files :=
    fun o ho => (List.mem_filter.mp ho).1
  have hmain := orphanFold_I1 (fixBadRefs db).1.files hnd1
    ((fixBadRefs db).1.files.filter
      (fun f => f.isDup && !hasRef (fixBadRefs db).1.refs f.id))
    ((fixBadRefs db).1, 0) hmem rfl hcc1
  intro h2
  exact hmain.2 h2

lemma I1_rebuild (db : DB) (hnd : (db.files.map (fun f => f.id)).Nodup) :
    I1 (rebuild_file_references db) := by
  intro h2
  rw [canonCount_eq, rebuild_files_eq db hnd]
  have hpt : ∀ g ∈ db.files, canonP h2
      ((fun g => if rebuildSpecDup db.files g then ({ g with isDup := true } : File)
        else { g with isDup := false }) g)
      = ((g.fileHash == some h2) && !(rebuildSpecDup db.files g)) := by
    intro g _
    by_cases hs : rebuildSpecDup db.files g = true
    · simp [canonP, hs]
    · have hs2 : rebuildSpecDup db.files g = false := by
        cases hb : rebuildSpecDup db.files g
        · rfl
        · exact absurd hb hs
      simp [canonP, hs2]
  rw [countP_map_simp db.files
    (fun g => if rebuildSpecDup db.files g then ({ g with isDup := true } : File)
      else { g with isDup := false })
    (canonP h2)
    (fun g => (g.fileHash == some h2) && !(rebuildSpecDup db.files g)) hpt]
  have e2 : db.files.countP
      (fun g => (g.fileHash == some h2) && !(rebuildSpecDup db.files g))
      = (groupOf db.files h2).countP (fun g => !(rebuildSpecDup db.files g)) := by
    unfold groupOf
    rw [List.countP_filter]
    exact countP_congr_eq _ _ _ (fun a _ => Bool.and_comm _ _)
  rw [e2]
  cases hgr : groupOf db.files h2 with
  | nil => simp
  | cons o1 t =>
      cases t with
      | nil =>
          have ho1 : o1 ∈ groupOf db.files h2 := by
            rw [hgr]
            exact List.mem_cons_self _ _
          have hh : o1.fileHash = some h2 := ((mem_groupOf db.files h2 o1).mp ho1).2
          have hsp : rebuildSpecDup db.files o1 = false := by
            unfold rebuildSpecDup
            rw [hh]
            dsimp only
            rw [hgr]
          simp [hsp]
      | cons o2 rest =>
          have hpt2 : ∀ g ∈ o1 :: o2 :: rest,
              (!(rebuildSpecDup db.files g)) = (o1.id == g.id) := by
            intro g hgm
            have hgg : g ∈ groupOf db.files h2 := by
              rw [hgr]
              exact hgm
            have hh : g.fileHash = some h2 := ((mem_groupOf db.files h2 g).mp hgg).2
            unfold rebuildSpecDup
            rw [hh]
            dsimp only
            rw [hgr]
            simp
          rw [countP_congr_eq _ _ _ hpt2]
          have hpt3 : ∀ g ∈ o1 :: o2 :: rest, (o1.id == g.id) = (g.id == o1.id) :=
            fun g _ => beq_nat_comm o1.id g.id
          rw [countP_congr_eq _ _ _ hpt3]
          have hgnd : ((o1 :: o2 :: rest).map (fun f => f.id)).Nodup := by
            rw [← hgr]
            exact groupOf_ids_nodup db.files h2 hnd
          exact countP_id_le_one (o1 :: o2 :: rest) o1.id hgnd

/-! ### Claim theorems -/

/-- C1: ingesting identical content n times (n at least 1, any
per-upload filenames, including zero-byte content, whose digest is an
ordinary hash value) leaves exactly one canonical File row, n - 1
duplicate rows, and each duplicate carries exactly one FileReference,
whose original_file is the single canonical row. -/
theorem C1_repeat_ingest_one_canonical_rest_duplicates
    (h sz n : Nat) (nms : Nat → String) (hn : 1 ≤ n) :
    ∃ c : File,
      (ingestSeq h sz nms n).files.filter (fun f => f.isDup == false) = [c] ∧
      ((ingestSeq h sz nms n).files.filter (fun f => f.isDup == true)).length = n - 1 ∧
      ∀ f ∈ (ingestSeq h sz nms n).files, f.isDup = true →
        ((ingestSeq h sz nms n).refs.countP (fun r => r.refId == f.id)) = 1 ∧
        ∀ r ∈ (ingestSeq h sz nms n).refs, r.refId = f.id → r.originalId = c.id := by
  obtain ⟨ds, hfiles, hlen, hdup, hids, hnext, hcount, hrefs⟩ := ingestSeq_inv h sz nms n hn
  set c0 : File := { id := 0, fileHash := some h, size := sz, name := nms 0,
                     isDup := false, path := 0, uploadedAt := 0 } with hc0
  refine ⟨c0, ?_, ?_, ?_⟩
  · rw [hfiles, List.filter_append]
    have h1 : ds.filter (fun f => f.isDup == false) = [] := by
      rw [List.filter_eq_nil_iff]
      intro f hf
      simp [(hdup f hf).1]
    rw [h1]
    rfl
  · rw [hfiles, List.filter_append]
    have h1 : ds.filter (fun f => f.isDup == true) = ds := by
      rw [List.filter_eq_self]
      intro f hf
      simp [(hdup f hf).1]
    have h2 : [c0].filter (fun f => f.isDup == true) = [] := rfl
    rw [h1, h2, List.append_nil]
    exact hlen
  · intro f hf hfd
    have hfds : f ∈ ds := by
      rw [hfiles] at hf
      rcases List.mem_append.mp hf with hm | hm
      · exact hm
      · exfalso
        have hfc : f = c0 := by simpa using hm
        rw [hfc] at hfd
        exact absurd hfd (by simp [hc0])
    exact ⟨hcount f hfds, fun r hr _ => (hrefs r hr).1⟩

/-- Witness for C1: three uploads of one content from the empty store. -/
theorem C1_repeat_ingest_one_canonical_rest_duplicates_witness :
    1 ≤ 3 ∧
    ∃ c : File,
      (ingestSeq 7 0 (fun _ => "u") 3).files.filter (fun f => f.isDup == false) = [c] ∧
      ((ingestSeq 7 0 (fun _ => "u") 3).files.filter (fun f => f.isDup == true)).length = 3 - 1 ∧
      ∀ f ∈ (ingestSeq 7 0 (fun _ => "u") 3).files, f.isDup = true →
        ((ingestSeq 7 0 (fun _ => "u") 3).refs.countP (fun r => r.refId == f.id)) = 1 ∧
        ∀ r ∈ (ingestSeq 7 0 (fun _ => "u") 3).refs, r.refId = f.id → r.originalId = c.id :=
  ⟨by decide,
    C1_repeat_ingest_one_canonical_rest_duplicates 7 0 3 (fun _ => "u") (by decide)⟩

/-- C5 counterexample: the claim says a confirmed delete promotes the
duplicate referenced by the temporally first (earliest created)
FileReference. FileReference declares no Meta ordering, so the
references.first() call of the promotion branch (views.py line 272)
orders by primary key — a random uuid4 — and the program promotes the
minimal-pk edge's duplicate instead. On dbC5x the edge to file 1 is the
earliest created but carries pk 9, while the later edge to file 2
carries pk 4: after the confirmed delete of canonical 0, file 1 is
still flagged duplicate and file 2 is the new canonical. -/
theorem C5_confirmed_delete_ignores_creation_order :
    (∃ r ∈ dbC5x.refs, r.refId = 1 ∧ ∀ r2 ∈ dbC5x.refs, r.createdAt ≤ r2.createdAt) ∧
    (∀ r2 ∈ dbC5x.refs, ∀ r3 ∈ dbC5x.refs, r2.refId = 1 → r3.refId ≠ 1 →
      r2.createdAt < r3.createdAt) ∧
    (∀ r ∈ dbC5x.refs, r.originalId = 0) ∧
    (∃ f ∈ dbC5x.files, f.id = 0 ∧ f.isDup = false) ∧
    (∃ f ∈ (destroy dbC5x 0 true).1.files, f.id = 1) ∧
    (∀ f ∈ (destroy dbC5x 0 true).1.files, f.id = 1 → f.isDup = true) ∧
    (∃ f ∈ (destroy dbC5x 0 true).1.files, f.id = 2 ∧ f.isDup = false) := by
  decide

/-- C5 (amended): confirmed deletion of a canonical file with k
duplicates promotes the duplicate referenced by the group edge with the
smallest primary key — references.first() on the unordered FileReference
queryset orders by pk, a random uuid4, so the selection is uncorrelated
with edge creation time: that file becomes canonical and survives, every
other edge of the group is re-pointed to it, the promoting edge is
deleted, the old canonical row disappears, and exactly k - 1 edges
remain, all pointing at the promoted file. Hypotheses: the target exists
and is canonical with edge group fr :: rest, no edge names the canonical
as its duplicate side, reference pks are unique, no pre-existing edge
points at the promoted duplicate, and the promoted row exists. -/
theorem C5_confirmed_delete_promotes_min_pk_edge
    (db : DB) (fid : Nat) (inst : File) (fr : FileReference) (rest : List FileReference)
    (hget : getFile db.files fid = some inst)
    (hcanon : inst.isDup = false)
    (hgrp : db.refs.filter (fun r => r.originalId == fid) = fr :: rest)
    (hnoin : ∀ r ∈ db.refs, r.refId ≠ fid)
    (hnodupid : (db.refs.map (fun r => r.id)).Nodup)
    (hnotgt : ∀ r ∈ db.refs, r.originalId ≠ (firstByPk fr rest).refId)
    (hpe : ∃ fp ∈ db.files, fp.id = (firstByPk fr rest).refId) :
    (∀ r ∈ fr :: rest, (firstByPk fr rest).id ≤ r.id) ∧
    (∃ f ∈ (destroy db fid true).1.files, f.id = (firstByPk fr rest).refId) ∧
    (∀ f ∈ (destroy db fid true).1.files,
      f.id = (firstByPk fr rest).refId → f.isDup = false) ∧
    (∀ f ∈ (destroy db fid true).1.files, f.id ≠ fid) ∧
    (∀ r ∈ (destroy db fid true).1.refs,
      r.id ≠ (firstByPk fr rest).id ∧ r.originalId ≠ fid ∧ r.refId ≠ fid) ∧
    (∀ r ∈ fr :: rest, r.id ≠ (firstByPk fr rest).id →
      { r with originalId := (firstByPk fr rest).refId } ∈ (destroy db fid true).1.refs) ∧
    ((destroy db fid true).1.refs.filter
        (fun r => r.originalId == (firstByPk fr rest).refId)).length = rest.length ∧
    (destroy db fid true).1.refs.length = db.refs.length - 1 := by
  set sel : FileReference := firstByPk fr rest with hsel
  have hselm : sel ∈ fr :: rest := by
    rw [hsel]
    exact firstByPk_mem fr rest
  have hsel_mem_grp : sel ∈ db.refs.filter (fun r => r.originalId == fid) := by
    rw [hgrp]
    exact hselm
  have hsel_refs : sel ∈ db.refs := (List.mem_filter.mp hsel_mem_grp).1
  have hp_ne_fid : sel.refId ≠ fid := hnoin sel hsel_refs
  have hgrp_sub : ∀ r ∈ fr :: rest, r ∈ db.refs ∧ r.originalId = fid := by
    intro r hr
    have hm : r ∈ db.refs.filter (fun r => r.originalId == fid) := by
      rw [hgrp]
      exact hr
    exact ⟨(List.mem_filter.mp hm).1, by simpa using (List.mem_filter.mp hm).2⟩
  have hgrpids : ((fr :: rest).map (fun r => r.id)).Nodup := by
    have hsubl : List.Sublist
        ((db.refs.filter (fun r => r.originalId == fid)).map (fun r => r.id))
        (db.refs.map (fun r => r.id)) := (List.filter_sublist _).map _
    have hnd2 := hnodupid.sublist hsubl
    rw [hgrp] at hnd2
    exact hnd2
  have hsel_count : (fr :: rest).countP (fun r => r.id == sel.id) = 1 := by
    have h1 : ((fr :: rest).map (fun r => r.id)).count sel.id = 1 :=
      List.count_eq_one_of_mem hgrpids (List.mem_map.mpr ⟨sel, hselm, rfl⟩)
    rw [List.count, List.countP_map] at h1
    exact h1
  have hgrp_not_count :
      (fr :: rest).countP (fun r => !(r.id == sel.id)) = rest.length := by
    rw [countP_not_eq (fr :: rest) (fun r => r.id == sel.id), hsel_count]
    simp
  set mapF : FileReference → FileReference := fun r =>
    if r.originalId == fid && !(r.id == sel.id)
    then { r with originalId := sel.refId } else r with hmapF
  have hmapF_id : ∀ r, (mapF r).id = r.id := by
    intro r
    rw [hmapF]
    dsimp only
    split <;> rfl
  have hmapF_ref : ∀ r, (mapF r).refId = r.refId := by
    intro r
    rw [hmapF]
    dsimp only
    split <;> rfl
  have hout : (destroy db fid true).1 =
      { db with files := removeFile (setDup db.files sel.refId false) fid,
                refs := cascadeRefs ((db.refs.map mapF).filter
                  (fun r => !(r.id == sel.id))) fid,
                blobs := blobCleanupOriginal
                  (removeFile (setDup db.files sel.refId false) fid) db.blobs inst } := by
    simp only [destroy, hget, hcanon, hgrp, hmapF, hsel]
    rfl
  set refs1 := db.refs.map mapF with hrefs1
  set refs2 := refs1.filter (fun r => !(r.id == sel.id)) with hrefs2
  have hrefs2_src : ∀ r ∈ refs2, ∃ r0 ∈ db.refs, r = mapF r0 ∧ r0.id ≠ sel.id := by
    intro r hr
    have hm1 := (List.mem_filter.mp hr).1
    have hm2 := (List.mem_filter.mp hr).2
    obtain ⟨r0, hr0, he⟩ := List.mem_map.mp hm1
    refine ⟨r0, hr0, he.symm, ?_⟩
    intro hid
    rw [← he, hmapF_id, hid] at hm2
    simp at hm2
  have hmapF_orig : ∀ r0 ∈ db.refs, r0.id ≠ sel.id → (mapF r0).originalId ≠ fid := by
    intro r0 hr0 hid
    by_cases hc : r0.originalId = fid
    · have : mapF r0 = { r0 with originalId := sel.refId } := by
        rw [hmapF]
        dsimp only
        rw [if_pos]
        simp [hc, hid]
      rw [this]
      exact hp_ne_fid
    · have : mapF r0 = r0 := by
        rw [hmapF]
        dsimp only
        rw [if_neg]
        simp [hc]
      rw [this]
      exact hc
  have hcas : cascadeRefs refs2 fid = refs2 := by
    rw [cascadeRefs, List.filter_eq_self]
    intro r hr
    obtain ⟨r0, hr0, rfl, hid⟩ := hrefs2_src r hr
    have h1 : (mapF r0).refId ≠ fid := by
      rw [hmapF_ref]
      exact hnoin r0 hr0
    have h2 : (mapF r0).originalId ≠ fid := hmapF_orig r0 hr0 hid
    simp [h1, h2]
  refine ⟨?_, ?_, ?_, ?_, ?_, ?_, ?_, ?_⟩
  · -- the promoted edge carries the smallest pk of its group
    intro r hr
    rw [hsel]
    exact firstByPk_min fr rest r hr
  · -- the promoted row survives
    obtain ⟨fp, hfp, hfpid⟩ := hpe
    rw [hout]
    refine ⟨updRow sel.refId false fp, ?_, ?_⟩
    · show updRow sel.refId false fp ∈ removeFile (setDup db.files sel.refId false) fid
      rw [removeFile]
      refine List.mem_filter.mpr ⟨?_, ?_⟩
      · rw [setDup_eq_map]
        exact List.mem_map.mpr ⟨fp, hfp, rfl⟩
      · rw [updRow_id, hfpid]
        simp [hp_ne_fid]
    · rw [updRow_id, hfpid]
  · -- any surviving row with the promoted id is canonical
    intro f hf hfid
    rw [hout] at hf
    have hf1 : f ∈ setDup db.files sel.refId false := (List.mem_filter.mp hf).1
    rw [setDup_eq_map] at hf1
    obtain ⟨g, hg, rfl⟩ := List.mem_map.mp hf1
    rw [updRow_id] at hfid
    unfold updRow
    simp [hfid]
  · -- the old canonical row is gone
    intro f hf
    rw [hout] at hf
    have := (List.mem_filter.mp hf).2
    simpa using this
  · -- no surviving edge is the promoting edge or touches the old canonical
    intro r hr
    rw [hout, hcas] at hr
    obtain ⟨r0, hr0, rfl, hid⟩ := hrefs2_src r hr
    exact ⟨by rw [hmapF_id]; exact hid, hmapF_orig r0 hr0 hid,
      by rw [hmapF_ref]; exact hnoin r0 hr0⟩
  · -- every other group edge is re-pointed to the promoted file
    intro r hr hrid
    rw [hout, hcas]
    have hrr := hgrp_sub r hr
    have hm : mapF r = { r with originalId := sel.refId } := by
      rw [hmapF]
      dsimp only
      rw [if_pos]
      simp [hrr.2, hrid]
    refine List.mem_filter.mpr ⟨?_, ?_⟩
    · exact List.mem_map.mpr ⟨r, hrr.1, hm⟩
    · rw [← hm, hmapF_id]
      simp [hrid]
  · -- exactly k - 1 edges point at the promoted file
    rw [hout, hcas, hrefs2, hrefs1]
    rw [← List.countP_eq_length_filter, List.countP_filter, List.countP_map]
    simp only [Function.comp_def]
    have hpt : ∀ r0 ∈ db.refs,
        ((mapF r0).originalId == sel.refId && !((mapF r0).id == sel.id)) =
          (!(r0.id == sel.id) && (r0.originalId == fid)) := by
      intro r0 hr0
      rw [hmapF_id]
      by_cases hid : r0.id = sel.id
      · simp [hid]
      · by_cases hc : r0.originalId = fid
        · have hm : mapF r0 = { r0 with originalId := sel.refId } := by
            rw [hmapF]
            dsimp only
            rw [if_pos]
            simp [hc, hid]
          rw [hm]
          simp [hid, hc]
        · have hm : mapF r0 = r0 := by
            rw [hmapF]
            dsimp only
            rw [if_neg]
            simp [hc]
          rw [hm]
          have e1 : (r0.originalId == sel.refId) = false := by
            simp [hnotgt r0 hr0]
          have e2 : (r0.originalId == fid) = false := by
            simp [hc]
          rw [e1, e2, Bool.false_and, Bool.and_false]
    rw [countP_congr_eq _ _ _ hpt, ← List.countP_filter]
    rw [hgrp]
    exact hgrp_not_count
  · -- one edge fewer in total
    rw [hout, hcas, hrefs2, hrefs1]
    rw [← List.countP_eq_length_filter, List.countP_map]
    simp only [Function.comp_def]
    have hpt : ∀ r0 ∈ db.refs,
        (!((mapF r0).id == sel.id)) = (!(r0.id == sel.id)) := by
      intro r0 _
      rw [hmapF_id]
    rw [countP_congr_eq _ _ _ hpt]
    have hone : db.refs.countP (fun r => r.id == sel.id) = 1 := by
      have h1 : (db.refs.map (fun r => r.id)).count sel.id = 1 :=
        List.count_eq_one_of_mem hnodupid (List.mem_map.mpr ⟨sel, hsel_refs, rfl⟩)
      rw [List.count, List.countP_map] at h1
      exact h1
    rw [countP_not_eq db.refs (fun r => r.id == sel.id), hone]

/-- Witness for C5: on dbC5x the confirmed delete of canonical row 0
promotes file 2, referenced by the group edge with the smallest pk
(id 4), re-points the pk-9 edge to it, and leaves one edge. -/
theorem C5_confirmed_delete_promotes_min_pk_edge_witness :
    getFile dbC5x.files 0 =
      some ({ id := 0, fileHash := some 7, size := 4, name := "r",
              isDup := false, path := 0, uploadedAt := 0 } : File) ∧
    dbC5x.refs.filter (fun r => r.originalId == 0) =
      ({ id := 9, originalId := 0, refId := 1, createdAt := 1 } : FileReference) ::
        [{ id := 4, originalId := 0, refId := 2, createdAt := 2 }] ∧
    ((∀ r ∈ ({ id := 9, originalId := 0, refId := 1, createdAt := 1 } : FileReference) ::
        [{ id := 4, originalId := 0, refId := 2, createdAt := 2 }], 4 ≤ r.id) ∧
      (∃ f ∈ (destroy dbC5x 0 true).1.files, f.id = 2) ∧
      (∀ f ∈ (destroy dbC5x 0 true).1.files, f.id = 2 → f.isDup = false) ∧
      (∀ f ∈ (destroy dbC5x 0 true).1.files, f.id ≠ 0) ∧
      (∀ r ∈ (destroy dbC5x 0 true).1.refs,
        r.id ≠ 4 ∧ r.originalId ≠ 0 ∧ r.refId ≠ 0) ∧
      (∀ r ∈ ({ id := 9, originalId := 0, refId := 1, createdAt := 1 } : FileReference) ::
        [{ id := 4, originalId := 0, refId := 2, createdAt := 2 }], r.id ≠ 4 →
        { r with originalId := 2 } ∈ (destroy dbC5x 0 true).1.refs) ∧
      ((destroy dbC5x 0 true).1.refs.filter (fun r => r.originalId == 2)).length = 1 ∧
      (destroy dbC5x 0 true).1.refs.length = dbC5x.refs.length - 1) :=
  ⟨by decide, by decide,
    C5_confirmed_delete_promotes_min_pk_edge dbC5x 0
      ({ id := 0, fileHash := some 7, size := 4, name := "r",
         isDup := false, path := 0, uploadedAt := 0 } : File)
      ({ id := 9, originalId := 0, refId := 1, createdAt := 1 } : FileReference)
      [{ id := 4, originalId := 0, refId := 2, createdAt := 2 }]
      (by decide) (by decide) (by decide) (by decide) (by decide) (by decide)
      (by decide)⟩

/-- C6 counterexample: on dbC6, one hash group of two files where file
id 0 has the strictly earliest upload time, the rebuild marks file 0
duplicate and selects the newest upload (file 1) as canonical, refuting
the earliest-createdAt selection rule. -/
theorem C6_rebuild_demotes_earliest_upload :
    (∃ f ∈ dbC6.files, f.id = 0 ∧ f.uploadedAt = 0) ∧
    (∀ f ∈ dbC6.files, f.id ≠ 0 → 0 < f.uploadedAt) ∧
    (∀ f ∈ dbC6.files, f.fileHash = some 5) ∧
    dbC6.files.length = 2 ∧
    (∃ f ∈ (rebuild_file_references dbC6).files, f.id = 0 ∧ f.isDup = true) ∧
    (∃ f ∈ (rebuild_file_references dbC6).files, f.id = 1 ∧ f.isDup = false) := by
  decide

/-- C6 amended: rebuild_file_references deletes all FileReferences,
resets every flag, groups files by content hash, and within each group
of two or more selects as canonical the member listed first under the
default newest-first ordering (the latest uploaded_at when the table is
so ordered, ties resolved by table position, not by id); every other
group member is flagged duplicate and receives exactly one
FileReference to that canonical. -/
theorem C6_rebuild_groups_and_links (db : DB)
    (hnd : (db.files.map (fun f => f.id)).Nodup)
    (hsorted : db.files.Pairwise (fun a c => c.uploadedAt ≤ a.uploadedAt)) :
    ((rebuild_file_references db).files = db.files.map (fun g =>
      if rebuildSpecDup db.files g then { g with isDup := true }
      else { g with isDup := false })) ∧
    (∀ h : Nat, ∀ o ∈ (groupOf db.files h).head?,
      ∀ x ∈ groupOf db.files h, x.uploadedAt ≤ o.uploadedAt) ∧
    (∀ g ∈ db.files, ∀ h : Nat, g.fileHash = some h →
      rebuildSpecDup db.files g = true →
      ((rebuild_file_references db).refs.filter (fun r => r.refId == g.id)).length = 1 ∧
      (∀ r ∈ (rebuild_file_references db).refs, r.refId = g.id →
        ∀ o ∈ (groupOf db.files h).head?, r.originalId = o.id)) ∧
    (∀ r ∈ (rebuild_file_references db).refs, ∃ g ∈ db.files,
      rebuildSpecDup db.files g = true ∧ r.refId = g.id) := by
  have hids : ((resetFlags db.files).map (fun f => f.id)) =
      db.files.map (fun f => f.id) := by
    unfold resetFlags
    rw [List.map_map]
    rfl
  have hnd0 : ((resetFlags db.files).map (fun f => f.id)).Nodup := by
    rw [hids]
    exact hnd
  refine ⟨rebuild_files_eq db hnd, ?_, ?_, ?_⟩
  · -- the group head maximizes uploadedAt
    intro h o ho x hx
    rcases hgr : groupOf db.files h with - | ⟨a, rest⟩
    · rw [hgr] at ho
      exact absurd ho (by simp)
    · rw [hgr] at ho hx
      have hoa : a = o := by simpa using ho
      subst hoa
      have hpw : (a :: rest).Pairwise (fun u v => v.uploadedAt ≤ u.uploadedAt) := by
        rw [← hgr]
        exact hsorted.filter (fun f => f.fileHash == some h)
      rcases List.mem_cons.mp hx with rfl | hx2
      · exact Nat.le_refl _
      · exact (List.pairwise_cons.mp hpw).1 x hx2
  · -- one edge per new duplicate, pointing at the group head
    intro g hg h hgh hspec
    rcases hgdb : groupOf db.files h with - | ⟨o1, t⟩
    · exfalso
      have hm : g ∈ groupOf db.files h := (mem_groupOf db.files h g).mpr ⟨hg, hgh⟩
      rw [hgdb] at hm
      exact absurd hm (List.not_mem_nil g)
    rcases t with - | ⟨o2, orest⟩
    · exfalso
      unfold rebuildSpecDup at hspec
      rw [hgh] at hspec
      dsimp only at hspec
      rw [hgdb] at hspec
      simp at hspec
    have ho1ne : o1.id ≠ g.id := by
      unfold rebuildSpecDup at hspec
      rw [hgh] at hspec
      dsimp only at hspec
      rw [hgdb] at hspec
      simpa using hspec
    have hgmem2 : g ∈ o2 :: orest := by
      have hm : g ∈ groupOf db.files h := (mem_groupOf db.files h g).mpr ⟨hg, hgh⟩
      rw [hgdb] at hm
      rcases List.mem_cons.mp hm with rfl | hm2
      · exact absurd rfl ho1ne
      · exact hm2
    have hgrp0 : groupOf (resetFlags db.files) h =
        { o1 with isDup := false } :: { o2 with isDup := false } ::
          orest.map (fun f => { f with isDup := false }) := by
      rw [groupOf_reset, hgdb]
      rfl
    have hgidnd : ((o1 :: o2 :: orest).map (fun f => f.id)).Nodup := by
      have h2 := groupOf_ids_nodup db.files h hnd
      rw [hgdb] at h2
      exact h2
    constructor
    · obtain ⟨-, hPB⟩ := rebuild_core db hnd0
      rw [← List.countP_eq_length_filter]
      have hc1 : (rebuild_file_references db).refs.countP (fun r => r.refId == g.id) =
          ((rebuild_file_references db).refs.map
            (fun r => (r.originalId, r.refId))).countP (fun pr => pr.2 == g.id) := by
        rw [List.countP_map]
        rfl
      rw [hc1, hPB, countP_flatten, List.map_map]
      have hhk : h ∈ hashKeys (resetFlags db.files) := by
        apply (mem_hashKeys _ h).mpr
        exact ⟨{ g with isDup := false }, List.mem_map.mpr ⟨g, hg, rfl⟩, hgh⟩
      have hkeyND : (hashKeys (resetFlags db.files)).Nodup :=
        hashKeys_nodup (resetFlags db.files) [] List.nodup_nil
      have hkey : ∀ k ∈ hashKeys (resetFlags db.files),
          (groupTailPairs (resetFlags db.files) k).countP (fun pr => pr.2 == g.id) =
            (if k = h then 1 else 0) := by
        intro k hk
        by_cases hkh : k = h
        · subst hkh
          rw [if_pos rfl]
          unfold groupTailPairs
          rw [hgrp0]
          have e1 := countP_map_simp
            ({ o2 with isDup := false } ::
              orest.map (fun f => { f with isDup := false }))
            (fun x => (({ o1 with isDup := false } : File).id, x.id))
            (fun pr => pr.2 == g.id) (fun y => y.id == g.id) (fun a _ => rfl)
          rw [e1]
          have hl2 : ({ o2 with isDup := false } ::
              orest.map (fun f => { f with isDup := false })) =
              (o2 :: orest).map (fun f => { f with isDup := false }) := rfl
          rw [hl2]
          have e2 := countP_map_simp (o2 :: orest)
            (fun f => ({ f with isDup := false } : File))
            (fun y => y.id == g.id) (fun y => y.id == g.id) (fun a _ => rfl)
          rw [e2]
          have hnd2 : ((o2 :: orest).map (fun f => f.id)).Nodup := by
            rw [List.map_cons, List.nodup_cons] at hgidnd
            exact hgidnd.2
          have hmem2 : g.id ∈ (o2 :: orest).map (fun f => f.id) :=
            List.mem_map.mpr ⟨g, hgmem2, rfl⟩
          have hcnt := List.count_eq_one_of_mem hnd2 hmem2
          have hcnt2 : ((o2 :: orest).map (fun f => f.id)).countP
              (fun x => x == g.id) = 1 := hcnt
          have e3 := countP_map_simp (o2 :: orest) (fun f => f.id)
            (fun x => x == g.id) (fun y => y.id == g.id) (fun a _ => rfl)
          rw [e3] at hcnt2
          exact hcnt2
        · rw [if_neg hkh]
          rcases hgk : groupOf (resetFlags db.files) k with - | ⟨orig, t2⟩
          · unfold groupTailPairs
            rw [hgk]
            rfl
          · rcases t2 with - | ⟨x1, xrest⟩
            · unfold groupTailPairs
              rw [hgk]
              rfl
            · unfold groupTailPairs
              rw [hgk]
              have e1 := countP_map_simp (x1 :: xrest)
                (fun x => (orig.id, x.id))
                (fun pr => pr.2 == g.id) (fun y => y.id == g.id) (fun a _ => rfl)
              rw [e1]
              rw [List.countP_eq_zero]
              intro x hx
              have hxg : x ∈ groupOf (resetFlags db.files) k := by
                rw [hgk]
                exact List.mem_cons_of_mem orig hx
              obtain ⟨hxf, hxh⟩ := (mem_groupOf _ k x).mp hxg
              simp only [beq_iff_eq]
              intro hxid
              have hxeq : x = { g with isDup := false } :=
                id_inj_of_nodup _ hnd0 x hxf { g with isDup := false }
                  (List.mem_map.mpr ⟨g, hg, rfl⟩) hxid
              rw [hxeq] at hxh
              have hgk2 : g.fileHash = some k := hxh
              rw [hgh] at hgk2
              exact hkh (Option.some.inj hgk2).symm
      have hmc : (hashKeys (resetFlags db.files)).map
          ((fun l : List (Nat × Nat) => l.countP (fun pr => pr.2 == g.id)) ∘
            groupTailPairs (resetFlags db.files)) =
          (hashKeys (resetFlags db.files)).map (fun k => if k = h then 1 else 0) :=
        List.map_congr_left (fun k hk => hkey k hk)
      rw [hmc, sum_indicator]
      have hcnt := List.count_eq_one_of_mem hkeyND hhk
      exact hcnt
    · intro r hr hrg o ho
      obtain ⟨k, orig, g1, grest, hgk, x, hx, hro, hrx⟩ :=
        rebuild_refs_src db hnd0 r hr
      have hxg : x ∈ groupOf (resetFlags db.files) k := by
        rw [hgk]
        exact List.mem_cons_of_mem orig hx
      obtain ⟨hxf, hxh⟩ := (mem_groupOf _ k x).mp hxg
      have hxid : x.id = g.id := by
        rw [← hrx, hrg]
      have hxeq : x = { g with isDup := false } :=
        id_inj_of_nodup _ hnd0 x hxf { g with isDup := false }
          (List.mem_map.mpr ⟨g, hg, rfl⟩) hxid
      have hkh : k = h := by
        rw [hxeq] at hxh
        have h2 : g.fileHash = some k := hxh
        rw [hgh] at h2
        exact (Option.some.inj h2).symm
      subst hkh
      have hmapg := groupOf_reset db.files k
      rw [hgk, hgdb, List.map_cons] at hmapg
      have hoo : o1 = o := by simpa using ho
      subst hoo
      have horig : orig = { o1 with isDup := false } := by
        injection hmapg
      rw [hro, horig]
  · intro r hr
    obtain ⟨k, orig, g1, grest, hgk, x, hx, hro, hrx⟩ :=
      rebuild_refs_src db hnd0 r hr
    have hxg : x ∈ groupOf (resetFlags db.files) k := by
      rw [hgk]
      exact List.mem_cons_of_mem orig hx
    obtain ⟨hxf, hxh⟩ := (mem_groupOf _ k x).mp hxg
    have hxf2 : x ∈ (db.files).map (fun f => { f with isDup := false }) := hxf
    obtain ⟨g, hgm, hgx⟩ := List.mem_map.mp hxf2
    refine ⟨g, hgm, ?_, ?_⟩
    · rw [← specDup_reset db.files g]
      have hgx2 : ({ g with isDup := false } : File) = x := hgx
      rw [hgx2]
      unfold rebuildSpecDup
      rw [hxh]
      dsimp only
      rw [hgk]
      have hndk := groupOf_ids_nodup (resetFlags db.files) k hnd0
      rw [hgk, List.map_cons, List.nodup_cons] at hndk
      have hone : orig.id ≠ x.id := by
        intro he
        exact hndk.1 (he ▸ List.mem_map.mpr ⟨x, hx, rfl⟩)
      simp [hone]
    · rw [hrx, ← hgx]

/-- Witness for C6 amended: the rebuild of dbC6 realizes the described
grouping, selection and linking. -/
theorem C6_rebuild_groups_and_links_witness :
    (dbC6.files.map (fun f => f.id)).Nodup ∧
    dbC6.files.Pairwise (fun a c => c.uploadedAt ≤ a.uploadedAt) ∧
    (((rebuild_file_references dbC6).files = dbC6.files.map (fun g =>
      if rebuildSpecDup dbC6.files g then { g with isDup := true }
      else { g with isDup := false })) ∧
    (∀ h : Nat, ∀ o ∈ (groupOf dbC6.files h).head?,
      ∀ x ∈ groupOf dbC6.files h, x.uploadedAt ≤ o.uploadedAt) ∧
    (∀ g ∈ dbC6.files, ∀ h : Nat, g.fileHash = some h →
      rebuildSpecDup dbC6.files g = true →
      ((rebuild_file_references dbC6).refs.filter
        (fun r => r.refId == g.id)).length = 1 ∧
      (∀ r ∈ (rebuild_file_references dbC6).refs, r.refId = g.id →
        ∀ o ∈ (groupOf dbC6.files h).head?, r.originalId = o.id)) ∧
    (∀ r ∈ (rebuild_file_references dbC6).refs, ∃ g ∈ dbC6.files,
      rebuildSpecDup dbC6.files g = true ∧ r.refId = g.id)) :=
  ⟨by decide, by decide, C6_rebuild_groups_and_links dbC6 (by decide) (by decide)⟩

/-- C7: the consistency audit is idempotent. After one run of
verify_duplicates on any state with distinct File primary keys, a second
run finds no FileReference whose reference_file is canonical and no
flagged duplicate lacking a FileReference, so its fixed_count is 0. -/
theorem C7_audit_idempotent (db : DB)
    (hnd : (db.files.map (fun f => f.id)).Nodup) :
    (verify_duplicates (verify_duplicates db).1).2 = 0 := by
  obtain ⟨hA, hB⟩ := verify_clean db hnd
  set dv := (verify_duplicates db).1 with hdv
  have hbad : dv.refs.filter (fun r => isBadRef dv.files r) = [] := by
    rw [List.filter_eq_nil_iff]
    intro r hr
    simp [hA r hr]
  have ha : fixBadRefs dv = (dv, 0) := by
    simp [fixBadRefs, hbad]
  have horph : dv.files.filter (fun f => f.isDup && !hasRef dv.refs f.id) = [] := by
    rw [List.filter_eq_nil_iff]
    intro f hf
    cases hfd : f.isDup with
    | false => simp [hfd]
    | true => simp [hfd, hB f hf hfd]
  show (verify_duplicates dv).2 = 0
  simp [verify_duplicates, ha, horph]

/-- Witness for C7: on dbC7, which has both a mis-flagged reference_file
and an orphaned duplicate, the second audit run fixes nothing. -/
theorem C7_audit_idempotent_witness :
    (dbC7.files.map (fun f => f.id)).Nodup ∧
    (verify_duplicates (verify_duplicates dbC7).1).2 = 0 :=
  ⟨by decide, C7_audit_idempotent dbC7 (by decide)⟩

/-- C10: creating a FileReference fires the update_reference_file signal,
so once the creation completes the reference_file row is marked
is_duplicate = true, even if it was created canonical; an edge whose
reference_file stays canonical can never result from edge creation
alone. -/
theorem C10_edge_creation_forces_duplicate_flag
    (db : DB) (origId refFileId : Nat) (f : File)
    (hf : f ∈ (createFileReference db origId refFileId).files)
    (hid : f.id = refFileId) : f.isDup = true := by
  simp only [createFileReference, applySignal, setDup_eq_map, List.mem_map] at hf
  obtain ⟨g, _, rfl⟩ := hf
  have hg : g.id = refFileId := by
    rw [← updRow_id refFileId true g]
    exact hid
  simp [updRow, hg]

/-- Witness for C10: in a store whose only file is canonical, creating a
FileReference onto it leaves it flagged duplicate. -/
theorem C10_edge_creation_forces_duplicate_flag_witness :
    ({ id := 0, fileHash := some 1, size := 4, name := "w", isDup := true,
       path := 0, uploadedAt := 0 } : File) ∈ (createFileReference dbC10 5 0).files ∧
    ({ id := 0, fileHash := some 1, size := 4, name := "w", isDup := true,
       path := 0, uploadedAt := 0 } : File).isDup = true :=
  ⟨by decide, C10_edge_creation_forces_duplicate_flag dbC10 5 0 _ (by decide) (by decide)⟩

/-- C3 counterexample: ingesting the same content twice stores two blobs
even though there is one distinct content hash, refuting that a
duplicate ingest adds no stored blob. -/
theorem C3_second_ingest_adds_blob :
    (ingest emptyDB 7 4 "a").1.blobs.length = 1 ∧
    (ingest (ingest emptyDB 7 4 "a").1 7 4 "b").1.blobs.length = 2 ∧
    (((ingest (ingest emptyDB 7 4 "a").1 7 4 "b").1.files.map
        (fun f => f.fileHash)).dedup).length = 1 := by
  decide

/-- C3 amended: every ingest, duplicate or not, stores its bytes at a
fresh blob location, so after any sequence of ingests the number of
stored blob locations equals the number of File rows, not the number of
distinct content hashes. -/
theorem C3_one_blob_per_ingested_file (ops : List (Nat × Nat × String)) :
    (ingestAll emptyDB ops).blobs.length = (ingestAll emptyDB ops).files.length :=
  ingestAll_blobs_eq_files ops emptyDB rfl

/-- C8: deleting duplicate row 0, whose storage location 5 is also named
by the surviving row 1, removes the blob at location 5 anyway: the
duplicate branch of FileViewSet.destroy deletes the physical file
without the is-used-by-other-records check that its own comment
announces and that the original branch performs. -/
theorem C8_duplicate_delete_removes_shared_blob :
    (destroy dbC8 0 false).1.blobs = [] ∧
    (destroy dbC8 0 false).2 = DestroyResult.noContent ∧
    ∃ f ∈ (destroy dbC8 0 false).1.files, f.path = 5 := by
  decide

/-- C9 counterexample: the stats action runs the consistency audit
first, so on the inconsistent store dbC9 (a flagged duplicate with no
reference and no canonical for its hash) computing the statistics
mutates a File row. -/
theorem C9_stats_mutates_inconsistent_state :
    (statsAction dbC9).1 ≠ dbC9 := by
  decide

/-- C9 amended: storageStats first runs the consistency audit, which can
mutate an inconsistent state; on every state the audit finds clean (no
FileReference whose reference_file is canonical and no duplicate File
lacking a FileReference) the stats computation leaves every File row and
every FileReference unchanged, and the aggregation itself only reads. -/
theorem C9_stats_readonly_on_consistent_state (db : DB)
    (hA : db.refs.filter (fun r => isBadRef db.files r) = [])
    (hB : db.files.filter (fun f => f.isDup && !hasRef db.refs f.id) = []) :
    (statsAction db).1 = db := by
  have h1 : fixBadRefs db = (db, 0) := by
    simp [fixBadRefs, hA]
  have h2 : verify_duplicates db = (db, 0) := by
    simp [verify_duplicates, h1, hB]
  simp [statsAction, h2]

/-- Witness for C9 amended: on the consistent store dbC9w the stats
action changes nothing. -/
theorem C9_stats_readonly_on_consistent_state_witness :
    dbC9w.refs.filter (fun r => isBadRef dbC9w.files r) = [] ∧
    dbC9w.files.filter (fun f => f.isDup && !hasRef dbC9w.refs f.id) = [] ∧
    (statsAction dbC9w).1 = dbC9w :=
  ⟨by decide, by decide,
    C9_stats_readonly_on_consistent_state dbC9w (by decide) (by decide)⟩

/-- C4: deleting a canonical file that has references, without the
confirmation flag, returns the 409 conflict carrying the duplicate
count, the duplicate ids and the duplicate filenames, and leaves the
whole state (File rows, FileReferences, blobs) unchanged. -/
theorem C4_unconfirmed_delete_conflicts_and_mutates_nothing
    (db : DB) (fid : Nat) (inst : File)
    (hget : getFile db.files fid = some inst)
    (hcanon : inst.isDup = false)
    (hne : db.refs.filter (fun r => r.originalId == fid) ≠ []) :
    destroy db fid false =
      (db, .conflict (db.refs.filter (fun r => r.originalId == fid)).length
        ((db.refs.filter (fun r => r.originalId == fid)).map (fun r => r.refId))
        ((db.refs.filter (fun r => r.originalId == fid)).map
          (fun r => nameOf db.files r.refId))) := by
  unfold destroy
  rw [hget]
  cases hgrp : db.refs.filter (fun r => r.originalId == fid) with
  | nil => exact absurd hgrp hne
  | cons fr rest => simp [hcanon, hgrp]

/-- Witness for C4: on dbC4 (canonical row 0 with two duplicates) the
unconfirmed delete returns the conflict and leaves the state intact. -/
theorem C4_unconfirmed_delete_conflicts_and_mutates_nothing_witness :
    getFile dbC4.files 0 =
      some ({ id := 0, fileHash := some 7, size := 4, name := "a",
              isDup := false, path := 0, uploadedAt := 0 } : File) ∧
    dbC4.refs.filter (fun r => r.originalId == 0) ≠ [] ∧
    destroy dbC4 0 false =
      (dbC4, .conflict (dbC4.refs.filter (fun r => r.originalId == 0)).length
        ((dbC4.refs.filter (fun r => r.originalId == 0)).map (fun r => r.refId))
        ((dbC4.refs.filter (fun r => r.originalId == 0)).map
          (fun r => nameOf dbC4.files r.refId))) :=
  ⟨by decide, by decide,
    C4_unconfirmed_delete_conflicts_and_mutates_nothing dbC4 0
      ({ id := 0, fileHash := some 7, size := 4, name := "a",
         isDup := false, path := 0, uploadedAt := 0 } : File)
      (by decide) (by decide) (by decide)⟩

/-- C2 counterexample: as stated, invariant I1 (at most one canonical File
per content hash) is not preserved by every engine operation. A confirmed
delete of a canonical file promotes the first FileReference's
reference_file without checking its hash, so on dbC2 — which satisfies I1
but carries one FileReference linking rows of different hashes — the
confirmed delete of file 0 leaves two canonical rows of hash 2. -/
theorem C2_confirmed_delete_breaks_I1 :
    I1 dbC2 ∧ ¬ I1 (applyOp dbC2 (Op.destroyOp 0 true)) := by
  constructor
  · exact (I1_iff_nodup dbC2).mpr (by decide)
  · intro hI
    exact absurd (hI 2) (by decide)

/-- C2 (amended): invariant I1 is preserved by every engine operation —
ingest, delete (confirmed or not), the consistency audit, and the
reference rebuild — on every state whose File primary keys are distinct
and below the id counter and whose FileReferences all link two rows of
equal content hash. -/
theorem C2_i1_preserved_with_same_hash_edges (db : DB) (op : Op)
    (hWF : WF db) (hES : EdgesSameHash db) (hI1 : I1 db) :
    I1 (applyOp db op) := by
  cases op with
  | ingestOp h sz nm => exact I1_ingest db h sz nm hWF hI1
  | destroyOp fid c => exact I1_destroy db fid c hWF hES hI1
  | auditOp => exact I1_verify db hWF.1 hI1
  | rebuildOp => exact I1_rebuild db hWF.1

/-- Witness for C2: the preservation theorem applied to the deduplicated
state dbC2w (canonical row 0, duplicates 1 and 3, all hash 7) and the
confirmed delete of its canonical file. -/
theorem C2_i1_preserved_with_same_hash_edges_witness :
    I1 (applyOp dbC2w (Op.destroyOp 0 true)) :=
  C2_i1_preserved_with_same_hash_edges dbC2w (Op.destroyOp 0 true)
    (by constructor
        · decide
        · decide)
    (by unfold EdgesSameHash
        decide)
    ((I1_iff_nodup dbC2w).mpr (by decide))

end AbnormalFileHub
